import Mathlib

attribute [local semireducible] Rat.mul Rat.sub Rat.add Rat.inv

/-!
Verification of the fotostudio-helper core against its specification.

This file gives a shallow embedding, in Lean 4, of the pure core of the
repository:

* the Session Grouper (`app/lib/sessions.js` `groupSessions` and
  `app/public/lib/util.js` `groupSessionsClient`),
* the Preset Generator (`app/public/lib/util.js`
  `computeGapPresetsFromItems` and `uniqueSorted`),
* the path-containment primitives and the trash movers
  (`app/lib/companions.js` `assertInsideRoot`,
  `app/routes/delete-photoSession.js` `moveToTrashPreserveRel`,
  `app/routes/delete.js` `moveToTrash`),
* the Companion Index Builder and Companion Resolver
  (`app/lib/companions.js` `buildCompanionIndex`, `resolveCompanions`),
* the idempotent archive-copy (`app/lib/import.js` `copyFileEnsured`,
  `app/routes/import.js` `copyOriginals`),
* the `/api/delete-session` batch route
  (`app/routes/delete-photoSession.js`).

Modelling conventions:

* JavaScript numbers that hold timestamps, thresholds and millisecond
  deltas are modelled as `ℚ` (they are finite IEEE doubles in the code;
  every arithmetic operation the code performs on them - addition,
  subtraction, comparison, `Math.min`/`Math.max` - is exact on the values
  that occur, with the single exception of `Math.exp`/`Math.log`, which
  are kept abstract, see `computeGapPresetsCore`).  The JavaScript value
  `NaN`/`undefined` is modelled by `Option ℚ` where it can occur.
* Strings are modelled as `List Char`; `String.prototype.toLowerCase`
  becomes `Char.toLower` mapped over the list (the names involved are
  ASCII).
* Filesystem paths are modelled as lists of name components of an
  absolute POSIX path (`path.sep = "/"`), and the filesystem itself as a
  list of such paths (the set of existing regular files).
* Fallible operations (JavaScript `throw`) are modelled with `Except`,
  carrying the thrown message or error code.
-/

namespace FotoStudio


/-! ## Data model: scan items (spec §3, `ScanItem`) -/

/-- A `ScanItem` as consumed by the Session Grouper and the Preset
Generator: a path and a capture timestamp in milliseconds (`ts` in the
code). -/
structure Item where
  path : List Char
  ts : ℚ
deriving DecidableEq, Repr, Inhabited

/-! ## Session Grouper (`app/lib/sessions.js`, `groupSessions`)

The `for (const it of items)` loop keeps a current group `cur` and the
finished groups `sessions`.  Because items are appended to `cur` one by
one, the loop's `prev = cur[cur.length - 1]` is always the element pushed
most recently; `groupGo` carries it as the explicit argument `prev`
together with the invariant `cur.getLast? = some prev`. -/

/-- Loop of `groupSessions` from the point where `cur` is nonempty with
most recently pushed element `prev`: `it.ts - prev.ts > gapMs` closes the
current group and starts a new one, otherwise `it` is appended. -/
def groupGo (gapMs : ℚ) (cur : List Item) (prev : Item) : List Item → List (List Item)
  | [] => [cur]
  | it :: rest =>
    if gapMs < it.ts - prev.ts then cur :: groupGo gapMs [it] it rest
    else groupGo gapMs (cur ++ [it]) it rest

/-- The grouping pass shared by `groupSessions` (server) and
`groupSessionsClient` (client): split the item list into sessions at
every consecutive gap strictly larger than `gapMs`. -/
def groupSessionsCore (items : List Item) (gapMs : ℚ) : List (List Item) :=
  match items with
  | [] => []
  | it :: rest => groupGo gapMs [it] it rest

/-- Loop of `groupSessionsClient` (`app/public/lib/util.js`): same state
machine, with the complementary test `it.ts - cur[last].ts <= gapMs`. -/
def groupGoClient (gapMs : ℚ) (cur : List Item) (prev : Item) : List Item → List (List Item)
  | [] => [cur]
  | it :: rest =>
    if it.ts - prev.ts ≤ gapMs then groupGoClient gapMs (cur ++ [it]) it rest
    else cur :: groupGoClient gapMs [it] it rest

/-- `groupSessionsClient`'s grouping pass. -/
def groupSessionsClientCore (items : List Item) (gapMs : ℚ) : List (List Item) :=
  match items with
  | [] => []
  | it :: rest => groupGoClient gapMs [it] it rest

/-- `path.basename` on a joined path string: the part after the final
slash (also what the client's `split("/").pop()` computes). -/
def basenameStr (p : List Char) : List Char :=
  (p.reverse.takeWhile (fun c => c ≠ '/')).reverse

/-- The session record built by `groupSessions`'s final `.map` (the
source field `end` is called `stop` here because `end` is a Lean
keyword). -/
structure SessionRec where
  id : List Char
  start : ℚ
  stop : ℚ
  count : ℕ
  examplePath : List Char
  exampleName : List Char
  items : List (List Char)
deriving DecidableEq, Repr

/-- `sessions.map((s, idx) => ...)` body of `groupSessions`. -/
def mkSessionRec (idx : ℕ) (s : List Item) : SessionRec :=
  { id := (Nat.repr idx).toList
    start := (s.headD default).ts
    stop := (s.getLastD default).ts
    count := s.length
    examplePath := (s.headD default).path
    exampleName := basenameStr (s.headD default).path
    items := s.map (·.path) }

/-- `groupSessions(items, gapMinutes)` from `app/lib/sessions.js`:
`gapMs = gapMinutes * 60 * 1000`, then the grouping pass, then the map
into session records. -/
def groupSessions (items : List Item) (gapMinutes : ℚ) : List SessionRec :=
  ((groupSessionsCore items (gapMinutes * 60 * 1000)).enum).map fun p => mkSessionRec p.1 p.2

/-- Relation between two consecutive sessions: the gap from the last item of
the first to the head item of the second exceeds the threshold. -/
def SessGap (gapMs : ℚ) (s t : List Item) : Prop :=
  ∀ a ∈ s.getLast?, ∀ b ∈ t.head?, gapMs < b.ts - a.ts

instance (gapMs : ℚ) (s t : List Item) : Decidable (SessGap gapMs s t) := by
  unfold SessGap; infer_instance

/-- Spec §8 concrete scenario: items at `t = 0, 30000, 45000, 4000000`
milliseconds. -/
def c2Items : List Item :=
  [⟨['a'], 0⟩, ⟨['b'], 30000⟩, ⟨['c'], 45000⟩, ⟨['d'], 4000000⟩]

/-- Concrete input for the C3 witness. -/
def c3Items : List Item :=
  [⟨['p'], 0⟩, ⟨['q'], 10000⟩, ⟨['r'], 30000⟩, ⟨['s'], 200000⟩]

/-! ## Preset Generator (`app/public/lib/util.js`)

`computeGapPresetsFromItems` and its helper `uniqueSorted`.  JavaScript
`NaN`/`undefined` values (which arise only from `snapUpToRealGap` on an
empty delta array, and are then propagated by `Math.min`/`Math.max`) are
modelled by `Option ℚ`; `Number.isFinite` rejects exactly the `none`s. -/

/-- `uniqueSorted(arr)`: keep finite, strictly positive entries, then
deduplicate (`new Set`, keeping first occurrences) and sort ascending
(`sort((a, b) => a - b)`).  Deduplicating and then sorting yields the
same list: both are the strictly ascending enumeration of the same set
of values. -/
def uniqueSorted (arr : List (Option ℚ)) : List ℚ :=
  List.insertionSort (· ≤ ·) (((arr.filterMap id).filter fun x => decide (0 < x)).dedup)

/-- The `while (lo < hi)` binary-search loop of `snapUpToRealGap`, with
explicit fuel.  Each iteration strictly shrinks `hi - lo`, so any
`fuel ≥ hi - lo` computes the loop's exit value; the caller passes
`diffs.length`. -/
def snapGo (diffs : List ℚ) (target : ℚ) : ℕ → ℕ → ℕ → ℕ
  | 0, lo, _ => lo
  | fuel + 1, lo, hi =>
    if lo < hi then
      if diffs.getD ((lo + hi) / 2) 0 < target then snapGo diffs target fuel ((lo + hi) / 2 + 1) hi
      else snapGo diffs target fuel lo ((lo + hi) / 2)
    else lo

/-- `snapUpToRealGap(target)`: lower-bound binary search over the sorted
`diffs`; `none` models the `undefined` the JavaScript function returns
when `diffs` is empty (`diffs[lo]` and `diffs[diffs.length - 1]` are
both `undefined` there; when `diffs` is nonempty `lo` is always in
range). -/
def snapUpToRealGap (diffs : List ℚ) (target : ℚ) : Option ℚ :=
  match diffs[snapGo diffs target diffs.length 0 (diffs.length - 1)]? with
  | some v => if target ≤ v then some v else diffs.getLast?
  | none => none

/-- The usable deltas: strictly positive consecutive differences of the
ascending-sorted timestamps (`if (d > 0) diffs.push(d)`), before the
final `diffs.sort`. -/
def usableDeltas (items : List Item) : List ℚ :=
  let ts := List.insertionSort (· ≤ ·) (items.map (·.ts))
  ((ts.zip ts.tail).map fun p => p.2 - p.1).filter fun d => decide (0 < d)

/-- The body of `computeGapPresetsFromItems` after the sparse-data early
return (`if (ts.length < 2) ...`).  `jsExp`/`jsLog` are the model's
stand-ins for `Math.exp`/`Math.log` (floating-point transcendentals kept
abstract); note that in the source every sampled value is clamped with
`Math.max(minFloorMs, Math.min(upper, t))` inside the sampling loop
itself.  `diffs[0] || minFloorMs` and `diffs[diffs.length - 1] ||
minDiff` read `undefined` on the empty array as falsy (the elements
themselves are strictly positive, hence truthy); `diffs.slice(-topK)` is
the whole array when `topK = 0` and the last `topK` elements otherwise. -/
def computeGapPresetsMain (jsExp jsLog : ℚ → ℚ) (steps topK : ℕ) (minFloorMs : ℚ)
    (items : List Item) : List ℚ :=
  let ts := List.insertionSort (· ≤ ·) (items.map (·.ts))
  let diffs := List.insertionSort (· ≤ ·) (usableDeltas items)
  let span := ts.getLastD 0 - ts.headD 0
  let minDiff := max minFloorMs (diffs.headD minFloorMs)
  let maxDiff := diffs.getLastD minDiff
  let base := [minFloorMs, 2000, 5000, 10000, 30000, 60000].filter fun x => decide (x ≤ span)
  let largest := if topK = 0 then diffs else diffs.drop (diffs.length - topK)
  let upper := max maxDiff span
  let logTargets :=
    if 2 ≤ steps then
      (List.range steps).map fun i =>
        max minFloorMs (min upper
          (jsExp (jsLog minDiff + (jsLog upper - jsLog minDiff) * ((i : ℚ) / ((steps : ℚ) - 1)))))
    else []
  let snapped := logTargets.map (snapUpToRealGap diffs)
  let out :=
    uniqueSorted ((base.map some ++ snapped ++ largest.map some ++ [some maxDiff, some span]).map
      fun x => x.map fun v => max minFloorMs (min span v))
  let out2 := if out.getLast? = some span then out else out ++ [span]
  uniqueSorted (out2.map some)

/-- `computeGapPresetsFromItems(items, {steps, topK, minFloorMs})`: sort
the (finite - identically true on ℚ) timestamps; on fewer than two of
them return the fixed fallback presets, otherwise run the main sampling
pipeline. -/
def computeGapPresetsCore (jsExp jsLog : ℚ → ℚ) (steps topK : ℕ) (minFloorMs : ℚ)
    (items : List Item) : List ℚ :=
  if (List.insertionSort (· ≤ ·) (items.map (·.ts))).length < 2 then
    uniqueSorted ([1000, 2000, 5000, 10000, 30000, 60000].map some)
  else computeGapPresetsMain jsExp jsLog steps topK minFloorMs items

/-- `computeGapPresetsFromItems(items)` at the default options
`steps = 11`, `topK = 6`, `minFloorMs = 1000` used by the client. -/
def computeGapPresetsFromItems (jsExp jsLog : ℚ → ℚ) (items : List Item) : List ℚ :=
  computeGapPresetsCore jsExp jsLog 11 6 1000 items

/-- Concrete stand-in for `Math.exp`, used only to state closed (fully
concrete) theorems.  Every theorem instantiated with it is evaluated at
inputs where the log-spaced sampling interval is clamped to a single
point, so the result provably does not depend on this choice (see
`computeGapPresets_c8_indep` and `computeGapPresets_c9_indep`). -/
def jsExpModel : ℚ → ℚ := fun x => x

/-- Concrete stand-in for `Math.log`; see `jsExpModel`. -/
def jsLogModel : ℚ → ℚ := fun x => x

/-! ### Claims C8 and C9 -/

/-- Three items spanning exactly `[0, 1000]` ms with both deltas `500`:
`span = minFloorMs = 1000`, so every candidate value is clamped to the
single point `1000` and the generator returns a one-element list. -/
def c8Items : List Item := [⟨['a'], 0⟩, ⟨['b'], 500⟩, ⟨['c'], 1000⟩]

/-- Two items with identical timestamps: two finite timestamps (so the
sparse-data early return is not taken) but zero usable deltas. -/
def c9Items : List Item := [⟨['a'], 0⟩, ⟨['b'], 0⟩]

/-! ## Filename helpers (`app/lib/companions.js`, pure helpers)

File and directory names are `List Char`. -/

/-- `toLowerCase` over a name (the names involved are ASCII, where
`Char.toLower` agrees with JavaScript `toLowerCase`). -/
def lower (s : List Char) : List Char := s.map Char.toLower

/-- `path.extname` of a file name: the suffix starting at the last dot;
empty when there is no dot or the only dot is the leading character (a
dotfile has no extension).  Node's extra special case for the name
`".."` is immaterial here: `readdir` never yields `".."` entries. -/
def extname (s : List Char) : List Char :=
  let r := s.reverse
  let pre := r.takeWhile fun c => c != '.'
  match r.dropWhile fun c => c != '.' with
  | [] => []
  | _ :: rest2 => if rest2 = [] then [] else '.' :: pre.reverse

/-- `stripExt(filename)`: `ext ? fn.slice(0, -ext.length) : fn`. -/
def stripExt (s : List Char) : List Char := s.take (s.length - (extname s).length)

/-- `String.prototype.trim` (ASCII space suffices for the names that
occur; no other whitespace appears in directory entries here). -/
def trimChars (s : List Char) : List Char :=
  ((s.dropWhile fun c => c = ' ').reverse.dropWhile fun c => c = ' ').reverse

/-- `RAW_EXTS` from `app/lib/companions.js`. -/
def RAW_EXTS : List (List Char) :=
  [".arw".toList, ".cr2".toList, ".cr3".toList, ".nef".toList, ".raf".toList,
    ".dng".toList, ".rw2".toList, ".orf".toList, ".pef".toList, ".srw".toList]

/-- `JPEG_EXTS`. -/
def JPEG_EXTS : List (List Char) := [".jpg".toList, ".jpeg".toList]

/-- `XMP_EXT`. -/
def XMP_EXT : List Char := ".xmp".toList

/-- `extLower(p) = lower(path.extname(p))`. -/
def extLower (p : List Char) : List Char := lower (extname p)

/-- `isRawName`. -/
def isRawName (f : List Char) : Bool := RAW_EXTS.contains (extLower f)

/-- `isJpegName`. -/
def isJpegName (f : List Char) : Bool := JPEG_EXTS.contains (extLower f)

/-- `isXmpName`. -/
def isXmpName (f : List Char) : Bool := extLower f == XMP_EXT

/-- `isHiddenName`: `name.startsWith(".")`. -/
def isHiddenName (n : List Char) : Bool := ['.'].isPrefixOf n

/-- `s.includes(pat)` on strings-as-char-lists. -/
def hasInfix (pat : List Char) : List Char → Bool
  | [] => pat.isPrefixOf []
  | c :: rest => pat.isPrefixOf (c :: rest) || hasInfix pat rest

/-- `isOnArtifactNameLower(fileNameLower)`: contains `".on1"` or
`".onphoto"`. -/
def isOnArtifactNameLower (fn : List Char) : Bool :=
  hasInfix ".on1".toList fn || hasInfix ".onphoto".toList fn

/-- `SKIP_DIR_NAMES` (Finder-ish noise). -/
def SKIP_DIR_NAMES : List (List Char) :=
  [".Trashes".toList, ".Spotlight-V100".toList, ".fseventsd".toList, "__MACOSX".toList]

/-- `shouldSkipDirName(name)` from `app/lib/companions.js`. -/
def shouldSkipDirName (name : List Char) : Bool :=
  name.isEmpty || isHiddenName name || SKIP_DIR_NAMES.contains name

/-- The result record of `makeKeys(primaryFileName)`. -/
structure Keys where
  base : List Char
  full : List Char
  baseKey : List Char
  fullKey : List Char
deriving DecidableEq, Repr

/-- `makeKeys`: `full` is the trimmed primary file name, `base` strips
its extension, `baseKey`/`fullKey` are the lower-cased keys. -/
def makeKeys (primaryFileName : List Char) : Keys :=
  let full := trimChars primaryFileName
  let base := stripExt full
  ⟨base, full, lower base, lower full⟩

/-- The separator class `/[ ._()\-]/` of `belongsToBaseOrFull`. -/
def isSepChar (c : Char) : Bool :=
  c == ' ' || c == '.' || c == '_' || c == '(' || c == ')' || c == '-'

/-- `belongsToBaseOrFull(fileName, {base, full})`: case-sensitive
prefix check.  (The final "base + separator" branch is unreachable - it
requires `fn.startsWith(base)`, which already returned `true` above -
but is transcribed nonetheless.) -/
def belongsToBaseOrFull (fileName base full : List Char) : Bool :=
  if fileName.isEmpty || base.isEmpty || full.isEmpty then false
  else
    full.isPrefixOf fileName || base.isPrefixOf fileName ||
      (decide (base.length < fileName.length) &&
        isSepChar ((fileName.drop base.length).headD ' ') &&
        base.isPrefixOf fileName)

/-! ## Path model (`path.resolve`, `path.relative`)

An absolute POSIX path is the list of its name components. -/

/-- One path component. -/
abbrev PathSeg := List Char

/-- An absolute path, as its components. -/
abbrev AbsPath := List PathSeg

/-- The component `".."`. -/
def ddot : PathSeg := ['.', '.']

/-- The component `"."`. -/
def dot1 : PathSeg := ['.']

/-- Resolution of an already-absolute path (`path.resolve`): `"."` and
empty components vanish, `".."` removes the previous component (at the
root it is a no-op, `/.. = /`). -/
def normComp (p : AbsPath) : AbsPath :=
  p.foldl (fun acc c =>
    if c = dot1 ∨ c = [] then acc
    else if c = ddot then acc.dropLast
    else acc ++ [c]) []

/-- Length of the longest common component prefix. -/
def commonPrefixLength : AbsPath → AbsPath → ℕ
  | a :: as, b :: bs => if a = b then commonPrefixLength as bs + 1 else 0
  | _, _ => 0

/-- `path.relative(from, to)` (POSIX): resolve both, strip the longest
common component prefix, then one `".."` per remaining `from` component
followed by the remaining `to` components. -/
def pathRelative (f t : AbsPath) : List PathSeg :=
  let f2 := normComp f
  let t2 := normComp t
  let k := commonPrefixLength f2 t2
  List.replicate (f2.length - k) ddot ++ t2.drop k

/-- Join components with `/`: the string that the JavaScript code
inspects with `startsWith`, `includes` and `isAbsolute`. -/
def interSlash : List PathSeg → List Char
  | [] => []
  | [c] => c
  | c :: rest => c ++ '/' :: interSlash rest

/-- `path.basename` of a component path. -/
def basenameP (p : AbsPath) : List Char := p.getLastD []

/-- `isPathInside(childAbs, parentAbs)` from both delete routes:
`rel && !rel.startsWith("..") && !path.isAbsolute(rel)`; on the joined
relative string, `isAbsolute` tests for a leading `/`. -/
def isPathInside (childAbs parentAbs : AbsPath) : Bool :=
  let rel := interSlash (pathRelative parentAbs childAbs)
  !rel.isEmpty && !ddot.isPrefixOf rel && !(rel.headD ' ' == '/')

/-- `assertInsideRoot(absPath, absRoot)` from `app/lib/companions.js`:
resolve both, reject when `rel === "" || rel.startsWith("..") ||
rel.includes("../")`.  (The JavaScript empty-string guards `!root`,
`!p` are unreachable for resolved paths - `path.resolve` never returns
the empty string - and have no counterpart in the component model.) -/
def assertInsideRoot (absPath absRoot : AbsPath) : Except String (AbsPath × AbsPath) :=
  let root := normComp absRoot
  let p := normComp absPath
  let rel := interSlash (pathRelative root p)
  if rel.isEmpty || ddot.isPrefixOf rel || hasInfix (ddot ++ ['/']) rel then
    .error "primaryPath is outside sourceRoot"
  else .ok (root, p)

/-! ## Companion Index Builder and Companion Resolver
(`app/lib/companions.js`) -/

/-- A file in the scanned tree: the directory names below the root (in
walk order) and the entry name, as produced by the recursive `readdir`
walk. -/
structure FEntry where
  dirs : List (List Char)
  name : List Char
deriving DecidableEq, Repr

/-- The absolute path of an entry below `root` (`path.join(dir, name)`
along the walk). -/
def entryPath (root : AbsPath) (f : FEntry) : AbsPath := root ++ f.dirs ++ [f.name]

/-- `buildCompanionIndex(sourceRoot, {includeJpeg})`: one walk of the
tree.  An entry is reached iff no ancestor directory name is skipped
(`shouldSkipDirName`) and its own name is not hidden; it is indexed iff
it is `*.xmp`, an ON1/OnPhoto artifact, or (with `includeJpeg`) a
`*.jpg`/`*.jpeg`, under the key `lower(stripExt(name))` (skipping an
empty key).  The `Map<string, Set<string>>` is modelled as an
association list from key to absolute path; the resolver consumes only
bucket membership, which is independent of the stack's walk order. -/
def buildCompanionIndex (sourceRoot : AbsPath) (includeJpeg : Bool) (files : List FEntry) :
    List ((List Char) × AbsPath) :=
  let root := normComp sourceRoot
  (files.filter fun f =>
      f.dirs.all (fun d => !shouldSkipDirName d) && !isHiddenName f.name &&
      (isXmpName (lower f.name) || isOnArtifactNameLower (lower f.name) ||
        (includeJpeg && isJpegName (lower f.name))) &&
      !(lower (stripExt f.name)).isEmpty).map
    fun f => (lower (stripExt f.name), entryPath root f)

/-- `index.get(k)`: the bucket of key `k` (empty when absent). -/
def idxGet (index : List ((List Char) × AbsPath)) (k : List Char) : List AbsPath :=
  (index.filter fun e => e.1 == k).map (·.2)

/-- `resolveCompanions(primaryPath, {sourceRoot, index,
includeJpegForRaw})`: root-scope check on the primary, then the three
match rules (exact XMP sidecars, ON1/OnPhoto artifacts over six
deterministic buckets with a defence-in-depth containment re-check, and
`base.jpg`/`base.jpeg` for RAW primaries).  The JavaScript `Set` output
is modelled by `dedup` of the concatenated matches; the claims below
are membership claims, independent of iteration order. -/
def resolveCompanions (primaryPath : AbsPath) (sourceRoot : AbsPath)
    (index : List ((List Char) × AbsPath)) (includeJpegForRaw : Bool) :
    Except String (List AbsPath) :=
  match assertInsideRoot primaryPath sourceRoot with
  | .error e => .error e
  | .ok (root, p) =>
    let name := basenameP p
    let keys := makeKeys name
    let wantBaseXmp := lower keys.base ++ XMP_EXT
    let wantFullXmp := lower keys.full ++ XMP_EXT
    let xmp1 := (idxGet index keys.baseKey).filter fun abs =>
      lower (basenameP abs) == wantBaseXmp
    let xmp2 := (idxGet index keys.fullKey).filter fun abs =>
      lower (basenameP abs) == wantFullXmp
    let bucketKeys := [keys.baseKey, keys.fullKey,
      keys.baseKey ++ ".on1".toList, keys.fullKey ++ ".on1".toList,
      keys.baseKey ++ ".onphoto".toList, keys.fullKey ++ ".onphoto".toList]
    let onArts := (bucketKeys.map fun k =>
      (idxGet index k).filter fun abs =>
        let rel := interSlash (pathRelative root abs)
        !(ddot.isPrefixOf rel || hasInfix (ddot ++ ['/']) rel) &&
        isOnArtifactNameLower (lower (basenameP abs)) &&
        belongsToBaseOrFull (basenameP abs) keys.base keys.full).flatten
    let jpgs :=
      if includeJpegForRaw && isRawName name then
        (idxGet index keys.baseKey).filter fun abs =>
          lower (basenameP abs) == lower keys.base ++ ".jpg".toList ||
          lower (basenameP abs) == lower keys.base ++ ".jpeg".toList
      else []
    .ok ((xmp1 ++ xmp2 ++ onArts ++ jpgs).dedup)

/-! ## Safe Archival Mover: trash moves
(`app/routes/delete-photoSession.js`, `app/routes/delete.js`) -/

/-- The filesystem: the set of existing regular files as absolute
component paths. -/
abbrev FS := List AbsPath

/-- The trash folder name `".studio-helper-trash"`. -/
def trashDirName : PathSeg := ".studio-helper-trash".toList

/-- The collision-suffix rename `base + "-" + Date.now() + ext` applied
to the last component of `dst` (string slicing on the joined path
touches only the basename). -/
def collisionSuffix (dst : AbsPath) (now : ℕ) : AbsPath :=
  match dst.getLast? with
  | some base =>
    dst.dropLast ++ [stripExt base ++ ('-' :: (Nat.repr now).toList) ++ extname base]
  | none => dst

/-- `moveToTrashPreserveRel(fileAbs, {sourceRootAbs, trashDirAbs})` from
`app/routes/delete-photoSession.js`.  The filesystem is threaded
explicitly; `now` models `Date.now()`; `fsp.rename` of a missing source
rejects with `ENOENT`, and renaming over an existing destination
replaces it; `ensureParentDir` has no observable effect in a files-only
filesystem model. -/
def moveToTrashPreserveRel (fs : FS) (fileAbs sourceRootAbs trashDirAbs : AbsPath)
    (now : ℕ) : Except String (FS × AbsPath) :=
  let rel := pathRelative sourceRootAbs fileAbs
  let relStr := interSlash rel
  if relStr.isEmpty || ddot.isPrefixOf relStr || (relStr.headD ' ' == '/') then
    .error "OUTSIDE_ROOT"
  else
    let dst := trashDirAbs ++ rel
    let dst2 := if fs.contains dst then collisionSuffix dst now else dst
    if fs.contains fileAbs then .ok (((fs.erase fileAbs).erase dst2) ++ [dst2], dst2)
    else .error "ENOENT"

/-- `trashRootForFile(fileAbs)` from `app/routes/delete.js`: the trash
folder next to the file (same volume, so `rename` stays atomic). -/
def trashRootForFile (fileAbs : AbsPath) : AbsPath :=
  fileAbs.dropLast ++ [trashDirName]

/-- `moveToTrash(fileAbs, {trashDir})` from `app/routes/delete.js`:
move the file flat into `trashDir` under its basename
(`${name}-${Date.now()}${ext}` on collision). -/
def moveToTrash (fs : FS) (fileAbs trashDir : AbsPath) (now : ℕ) :
    Except String (FS × AbsPath) :=
  let base := basenameP fileAbs
  let dst := trashDir ++ [base]
  let dst2 :=
    if fs.contains dst then
      trashDir ++ [stripExt base ++ ('-' :: (Nat.repr now).toList) ++ extname base]
    else dst
  if fs.contains fileAbs then .ok (((fs.erase fileAbs).erase dst2) ++ [dst2], dst2)
  else .error "ENOENT"

/-! ### Path lemmas -/

/-- A plain path component as produced by `readdir`: nonempty, not a
dot-navigation entry, no `".."` prefix and no path separator. -/
def NormalSeg (c : PathSeg) : Prop :=
  c ≠ [] ∧ c ≠ dot1 ∧ ¬ (ddot <+: c) ∧ '/' ∉ c

instance (c : PathSeg) : Decidable (NormalSeg c) := by
  unfold NormalSeg; infer_instance

/-- "Empty, or starts with a dot": the shape of everything that may
follow the base name in an accepted companion's name. -/
def DotTail (r : List Char) : Prop := r = [] ∨ r.headD ' ' = '.'

instance (r : List Char) : Decidable (DotTail r) := by
  unfold DotTail; infer_instance

/-! ## Archive copy (`app/lib/import.js`, `app/routes/import.js`) -/

/-- A filesystem with contents for the copy primitives: an association
of absolute paths to file contents (abstract tokens). -/
abbrev CFS := List (AbsPath × ℕ)

/-- `copyFileEnsured(src, dst)` from `app/lib/import.js` §06 (the
variant the import route consumes): create the destination's parent
directory (no observable effect in a files-only model), return
`{copied: false}` when `dst` already exists (`fsp.access` succeeds),
otherwise `fsp.copyFile(src, dst)` - which rejects with `ENOENT` when
the source is missing - and return `{copied: true}`. -/
def copyFileEnsured (fs : CFS) (src dst : AbsPath) : Except String (CFS × Bool) :=
  if (fs.lookup dst).isSome then .ok (fs, false)
  else
    match fs.lookup src with
    | some content => .ok (fs ++ [(dst, content)], true)
    | none => .error "ENOENT"

/-- `withCameraPrefix(filename, cameraLabel)` from
`app/routes/import.js`: trim the label; an empty label leaves the name
unchanged; otherwise prepend `label + "__"` unless the name already
starts with it. -/
def withCameraPrefix (filename cameraLabel : List Char) : List Char :=
  let cam := trimChars cameraLabel
  if cam.isEmpty then filename
  else
    let pfx := cam ++ "__".toList
    if pfx.isPrefixOf filename then filename else pfx ++ filename

/-- One `fileMap` record of `copyOriginals`: the source path, the
destination basename, and the `originals/<name>` relative path. -/
structure FileMapEntry where
  src : AbsPath
  dstName : List Char
  dstRel : List Char
deriving DecidableEq, Repr

/-- JavaScript default `Array.prototype.sort()` comparison for
`[...files].sort()`: lexicographic by code unit on the joined path
strings. -/
def strLeB : List Char → List Char → Bool
  | [], _ => true
  | _ :: _, [] => false
  | a :: as, b :: bs => if a = b then strLeB as bs else decide (a < b)

/-- The loop of `copyOriginals` (`app/routes/import.js`): for each
source in sorted order, compute the camera-prefixed destination name,
copy via `copyFileEnsured`, count copied/skipped, and extend the
`fileMap`.  A rejection from `copyFileEnsured` propagates - the route
has no per-file catch here. -/
def copyOriginalsGo (originalsDir : AbsPath) (cameraLabel : List Char) :
    CFS → ℕ → ℕ → List FileMapEntry → List AbsPath →
      Except String (CFS × ℕ × ℕ × List FileMapEntry)
  | fs, copied, skipped, acc, [] => .ok (fs, copied, skipped, acc)
  | fs, copied, skipped, acc, src :: rest =>
    let destName := withCameraPrefix (basenameP src) cameraLabel
    match copyFileEnsured fs src (originalsDir ++ [destName]) with
    | .error e => .error e
    | .ok (fs2, didCopy) =>
      copyOriginalsGo originalsDir cameraLabel fs2
        (if didCopy then copied + 1 else copied)
        (if didCopy then skipped else skipped + 1)
        (acc ++ [⟨src, destName, "originals/".toList ++ destName⟩]) rest

/-- `copyOriginals({files, originalsDir, cameraLabel})` from
`app/routes/import.js`: `[...files].sort()`, then the copy loop with
`copied = skipped = 0` and an empty `fileMap`. -/
def copyOriginals (fs : CFS) (files : List AbsPath) (originalsDir : AbsPath)
    (cameraLabel : List Char) : Except String (CFS × ℕ × ℕ × List FileMapEntry) :=
  copyOriginalsGo originalsDir cameraLabel fs 0 0 []
    (files.insertionSort fun a b => strLeB (interSlash a) (interSlash b) = true)

/-- The destination path of one source file:
`path.join(originalsDir, withCameraPrefix(path.basename(src), label))`. -/
def c6Dst (originalsDir : AbsPath) (cameraLabel : List Char) (src : AbsPath) : AbsPath :=
  originalsDir ++ [withCameraPrefix (basenameP src) cameraLabel]

/-- The `fileMap` block contributed by a list of sources. -/
def c6Map (cameraLabel : List Char) (l : List AbsPath) : List FileMapEntry :=
  l.map fun src =>
    ⟨src, withCameraPrefix (basenameP src) cameraLabel,
      "originals/".toList ++ withCameraPrefix (basenameP src) cameraLabel⟩

/-! ## The `/api/delete-session` route
(`registerDeletephotoSessionRoutes`, `app/routes/delete-photoSession.js`) -/

/-- `targets.add(abs)`: the JavaScript `Set` as an insertion-ordered
list without duplicates. -/
def addTarget (acc : List AbsPath) (x : AbsPath) : List AbsPath :=
  if x ∈ acc then acc else acc ++ [x]

/-- Step 4 of the route: for each primary, add it and its resolved
companions (normalized, skipped when empty, added only when inside the
root) to the deduplicated target list; a rejection thrown by
`resolveCompanions` propagates out of the whole loop. -/
def collectTargets (root : AbsPath) (index : List ((List Char) × AbsPath))
    (ijr : Bool) : List AbsPath → List AbsPath → Except String (List AbsPath)
  | acc, [] => .ok acc
  | acc, q :: rest =>
    match resolveCompanions q root index ijr with
    | .error e => .error e
    | .ok comps =>
      let acc1 := comps.foldl (fun a c =>
        let cAbs := normComp c
        if cAbs.isEmpty then a
        else if isPathInside cAbs root then addTarget a cAbs else a) (addTarget acc q)
      collectTargets root index ijr acc1 rest

/-- `files.map(normalizeAbs).filter(Boolean)` of the route. -/
def primariesOf (files : List AbsPath) : List AbsPath :=
  (files.map normComp).filter fun p => !p.isEmpty

/-- The JSON response of a successful delete-session request (the
fields the claims speak about). -/
structure DeleteResp where
  sourceRoot : AbsPath
  trashedTo : AbsPath
  moved : List (AbsPath × AbsPath)
  skipped : List AbsPath
  errors : List (AbsPath × String)
deriving DecidableEq, Repr

/-- Step 6 of the route: move each target under the per-file
`try/catch`.  `statIsFile` is membership in the file list; `ioFail` is
an oracle for an I/O rejection of the `rename` step (caught into
`errors`, as is a rejection from `moveToTrashPreserveRel` itself). -/
def moveLoop (root trashDir : AbsPath) (now : ℕ) (ioFail : AbsPath → Bool) :
    FS → List (AbsPath × AbsPath) → List AbsPath → List (AbsPath × String) →
      List AbsPath → FS × List (AbsPath × AbsPath) × List AbsPath × List (AbsPath × String)
  | fs, moved, skipped, errors, [] => (fs, moved, skipped, errors)
  | fs, moved, skipped, errors, q :: rest =>
    if q ∈ fs then
      if ioFail q then
        moveLoop root trashDir now ioFail fs moved skipped (errors ++ [(q, "EIO")]) rest
      else
        match moveToTrashPreserveRel fs q root trashDir now with
        | .ok (fs2, dst) =>
          moveLoop root trashDir now ioFail fs2 (moved ++ [(q, dst)]) skipped errors rest
        | .error e =>
          moveLoop root trashDir now ioFail fs moved skipped (errors ++ [(q, e)]) rest
    else
      moveLoop root trashDir now ioFail fs moved (skipped ++ [q]) errors rest

/-- `POST /api/delete-session` (`registerDeletephotoSessionRoutes`):
validate `sourceRoot` and `files`, require every primary inside the
root (`isPathInside`), build the companion index, collect the
deduplicated targets, make one timestamped trash directory under the
root, and move every target under a per-file `try/catch`; any error
thrown up to here is caught by the outer handler and sent as an error
response.  Modelled: `sourceRoot` as an `Option` (missing or empty body
field), the index walk by the entry list `entries`, `isoStamp()` by
`stamp`, `Date.now()` by `now`, a per-file I/O failure of the move by
the oracle `ioFail`; `mkdir` has no observable effect on the file list,
and the result is the response (or thrown error) paired with the final
file list. -/
def deleteSessionRoute (fs : FS) (sourceRoot : Option AbsPath) (files : List AbsPath)
    (entries : List FEntry) (stamp : PathSeg) (now : ℕ) (ioFail : AbsPath → Bool) :
    Except String DeleteResp × FS :=
  match sourceRoot with
  | none => (.error "sourceRoot missing", fs)
  | some sr =>
    let rootAbs := normComp sr
    if files.isEmpty then (.error "files missing", fs)
    else
      let primaryAbs := primariesOf files
      if primaryAbs.isEmpty then (.error "files invalid", fs)
      else if primaryAbs.any fun q => !isPathInside q rootAbs then
        (.error "Refusing to delete outside allowed root", fs)
      else
        let index := buildCompanionIndex rootAbs true entries
        match collectTargets rootAbs index true [] primaryAbs with
        | .error e => (.error e, fs)
        | .ok targets =>
          let trashDir := rootAbs ++ [trashDirName, stamp]
          match moveLoop rootAbs trashDir now ioFail fs [] [] [] targets with
          | (fs2, moved, skipped, errors) =>
            (.ok ⟨rootAbs, trashDir, moved, skipped, errors⟩, fs2)

/-! ### Lemmas about the grouping loop -/

theorem groupGo_flatten (gapMs : ℚ) (rest : List Item) :
    ∀ cur prev, (groupGo gapMs cur prev rest).flatten = cur ++ rest := by
  induction rest with
  | nil => intro cur prev; simp [groupGo]
  | cons it rest ih =>
    intro cur prev
    by_cases h : gapMs < it.ts - prev.ts
    · simp [groupGo, h, ih]
    · simp [groupGo, h, ih]

theorem groupSessionsCore_flatten (items : List Item) (gapMs : ℚ) :
    (groupSessionsCore items gapMs).flatten = items := by
  cases items with
  | nil => rfl
  | cons it rest => simpa using groupGo_flatten gapMs rest [it] it

theorem groupGo_ne_nil (gapMs : ℚ) (rest : List Item) :
    ∀ cur prev, cur ≠ [] → ∀ s ∈ groupGo gapMs cur prev rest, s ≠ [] := by
  induction rest with
  | nil =>
    intro cur prev hcur s hs
    simp [groupGo] at hs
    simpa [hs] using hcur
  | cons it rest ih =>
    intro cur prev hcur s hs
    by_cases h : gapMs < it.ts - prev.ts
    · simp [groupGo, h] at hs
      rcases hs with rfl | hs
      · exact hcur
      · exact ih [it] it (by simp) s hs
    · simp only [groupGo, if_neg h] at hs
      exact ih (cur ++ [it]) it (by simp) s hs

theorem groupGo_chain_le (gapMs : ℚ) (rest : List Item) :
    ∀ cur prev, cur.getLast? = some prev →
      cur.Chain' (fun a b => b.ts - a.ts ≤ gapMs) →
      ∀ s ∈ groupGo gapMs cur prev rest, s.Chain' (fun a b => b.ts - a.ts ≤ gapMs) := by
  induction rest with
  | nil =>
    intro cur prev _ hc s hs
    simp [groupGo] at hs
    simpa [hs] using hc
  | cons it rest ih =>
    intro cur prev hlast hc s hs
    by_cases h : gapMs < it.ts - prev.ts
    · simp [groupGo, h] at hs
      rcases hs with rfl | hs
      · exact hc
      · exact ih [it] it (by simp) (by simp) s hs
    · simp only [groupGo, if_neg h] at hs
      refine ih (cur ++ [it]) it (by simp) ?_ s hs
      rw [List.chain'_append]
      refine ⟨hc, by simp, ?_⟩
      intro x hx y hy
      rw [hlast] at hx
      simp at hx hy
      subst hx; subst hy
      exact le_of_not_lt h

/-- The first group produced by `groupGo` extends the current group. -/
theorem groupGo_head (gapMs : ℚ) (rest : List Item) :
    ∀ cur prev, ∃ u w, groupGo gapMs cur prev rest = (cur ++ u) :: w := by
  induction rest with
  | nil => intro cur prev; exact ⟨[], [], by simp [groupGo]⟩
  | cons it rest ih =>
    intro cur prev
    by_cases h : gapMs < it.ts - prev.ts
    · exact ⟨[], groupGo gapMs [it] it rest, by simp [groupGo, h]⟩
    · obtain ⟨u, w, hw⟩ := ih (cur ++ [it]) it
      exact ⟨[it] ++ u, w, by simp [groupGo, h, hw]⟩

theorem groupGo_chain_gap (gapMs : ℚ) (rest : List Item) :
    ∀ cur prev, cur.getLast? = some prev →
      (groupGo gapMs cur prev rest).Chain' (SessGap gapMs) := by
  induction rest with
  | nil => intro cur prev _; simp [groupGo]
  | cons it rest ih =>
    intro cur prev hlast
    by_cases h : gapMs < it.ts - prev.ts
    · simp only [groupGo, if_pos h]
      rw [List.chain'_cons']
      refine ⟨?_, ih [it] it (by simp)⟩
      intro t ht
      obtain ⟨u, w, hw⟩ := groupGo_head gapMs rest [it] it
      rw [hw] at ht
      simp at ht
      subst ht
      intro a ha b hb
      rw [hlast] at ha
      simp at ha hb
      subst ha; subst hb
      exact h
    · simp only [groupGo, if_neg h]
      exact ih (cur ++ [it]) it (by simp)

theorem groupGo_length_indep (gapMs : ℚ) (rest : List Item) :
    ∀ cur cur' prev,
      (groupGo gapMs cur prev rest).length = (groupGo gapMs cur' prev rest).length := by
  induction rest with
  | nil => intro cur cur' prev; simp [groupGo]
  | cons it rest ih =>
    intro cur cur' prev
    by_cases h : gapMs < it.ts - prev.ts
    · simp [groupGo, h]
    · simp only [groupGo, if_neg h]
      exact ih (cur ++ [it]) (cur' ++ [it]) it

theorem groupGo_length_antitone (t1 t2 : ℚ) (h12 : t1 ≤ t2) (rest : List Item) :
    ∀ cur prev, (groupGo t2 cur prev rest).length ≤ (groupGo t1 cur prev rest).length := by
  induction rest with
  | nil => intro cur prev; simp [groupGo]
  | cons it rest ih =>
    intro cur prev
    by_cases h2 : t2 < it.ts - prev.ts
    · have h1 : t1 < it.ts - prev.ts := lt_of_le_of_lt h12 h2
      simp only [groupGo, if_pos h2, if_pos h1, List.length_cons]
      exact Nat.succ_le_succ (ih [it] it)
    · by_cases h1 : t1 < it.ts - prev.ts
      · simp only [groupGo, if_neg h2, if_pos h1, List.length_cons]
        calc (groupGo t2 (cur ++ [it]) it rest).length
            = (groupGo t2 [it] it rest).length := groupGo_length_indep t2 rest _ _ it
          _ ≤ (groupGo t1 [it] it rest).length := ih [it] it
          _ ≤ (groupGo t1 [it] it rest).length + 1 := Nat.le_succ _
      · simp only [groupGo, if_neg h2, if_neg h1]
        exact ih (cur ++ [it]) it

/-- The client grouping is the same function as the server grouping. -/
theorem groupGoClient_eq (gapMs : ℚ) (rest : List Item) :
    ∀ cur prev, groupGoClient gapMs cur prev rest = groupGo gapMs cur prev rest := by
  induction rest with
  | nil => intro cur prev; rfl
  | cons it rest ih =>
    intro cur prev
    by_cases h : gapMs < it.ts - prev.ts
    · simp [groupGoClient, groupGo, h, not_le.mpr h, ih]
    · simp [groupGoClient, groupGo, h, le_of_not_lt h, ih]

theorem groupSessionsClientCore_eq (items : List Item) (gapMs : ℚ) :
    groupSessionsClientCore items gapMs = groupSessionsCore items gapMs := by
  cases items with
  | nil => rfl
  | cons it rest => exact groupGoClient_eq gapMs rest [it] it

/-! ### Claims C2 and C3 -/

/-- Claim C2: for every list of items sorted ascending by timestamp and
every threshold, the Session Grouper's output sessions are pairwise
disjoint, the in-order concatenation of their items equals the input,
within each session every consecutive timestamp delta is at most the
threshold, and the gap between the last item of one session and the
first item of the next session (when one exists) is strictly greater
than the threshold.  (The input is a set of scan items, i.e. duplicate
free, per spec §3.) -/
theorem claim_C2_sessionPartition (items : List Item) (gapMs : ℚ)
    (hsorted : items.Chain' (fun a b => a.ts ≤ b.ts)) (hnodup : items.Nodup) :
    (groupSessionsCore items gapMs).flatten = items ∧
    (groupSessionsCore items gapMs).Pairwise List.Disjoint ∧
    (∀ s ∈ groupSessionsCore items gapMs, s.Chain' (fun a b => b.ts - a.ts ≤ gapMs)) ∧
    (groupSessionsCore items gapMs).Chain' (SessGap gapMs) := by
  clear hsorted
  refine ⟨groupSessionsCore_flatten items gapMs, ?_, ?_, ?_⟩
  · rw [← groupSessionsCore_flatten items gapMs] at hnodup
    exact (List.nodup_flatten.mp hnodup).2
  · cases items with
    | nil => intro s hs; simp [groupSessionsCore] at hs
    | cons it rest => exact groupGo_chain_le gapMs rest [it] it (by simp) (by simp)
  · cases items with
    | nil => simp [groupSessionsCore]
    | cons it rest => exact groupGo_chain_gap gapMs rest [it] it (by simp)

theorem claim_C2_sessionPartition_witness :
    (c2Items.Chain' (fun a b => a.ts ≤ b.ts) ∧ c2Items.Nodup) ∧
    ((groupSessionsCore c2Items 60000).flatten = c2Items ∧
      (groupSessionsCore c2Items 60000).Pairwise List.Disjoint ∧
      (∀ s ∈ groupSessionsCore c2Items 60000, s.Chain' (fun a b => b.ts - a.ts ≤ 60000)) ∧
      (groupSessionsCore c2Items 60000).Chain' (SessGap 60000)) :=
  ⟨⟨by norm_num [c2Items, List.chain'_cons, List.chain'_singleton], by decide⟩,
    claim_C2_sessionPartition c2Items 60000
      (by norm_num [c2Items, List.chain'_cons, List.chain'_singleton]) (by decide)⟩

/-- Claim C3: for every fixed list of items sorted ascending by
timestamp and thresholds `t1 ≤ t2`, the Session Grouper produces at most
as many sessions with threshold `t2` as with threshold `t1`. -/
theorem claim_C3_thresholdMonotone (items : List Item) (t1 t2 : ℚ)
    (hsorted : items.Chain' (fun a b => a.ts ≤ b.ts)) (h12 : t1 ≤ t2) :
    (groupSessionsCore items t2).length ≤ (groupSessionsCore items t1).length := by
  clear hsorted
  cases items with
  | nil => exact le_refl _
  | cons it rest => exact groupGo_length_antitone t1 t2 h12 rest [it] it

theorem claim_C3_thresholdMonotone_witness :
    (c3Items.Chain' (fun a b => a.ts ≤ b.ts) ∧ (5000 : ℚ) ≤ 60000) ∧
    (groupSessionsCore c3Items 60000).length ≤ (groupSessionsCore c3Items 5000).length :=
  ⟨⟨by norm_num [c3Items, List.chain'_cons, List.chain'_singleton], by norm_num⟩,
    claim_C3_thresholdMonotone c3Items 5000 60000
      (by norm_num [c3Items, List.chain'_cons, List.chain'_singleton]) (by norm_num)⟩

/-! ### Lemmas about `uniqueSorted` and the preset pipeline -/

theorem uniqueSorted_sorted (arr : List (Option ℚ)) :
    (uniqueSorted arr).Sorted (· ≤ ·) :=
  List.sorted_insertionSort _ _

theorem uniqueSorted_nodup (arr : List (Option ℚ)) : (uniqueSorted arr).Nodup :=
  ((List.perm_insertionSort _ _).nodup_iff).mpr (List.nodup_dedup _)

theorem mem_uniqueSorted (arr : List (Option ℚ)) (a : ℚ) :
    a ∈ uniqueSorted arr ↔ some a ∈ arr ∧ 0 < a := by
  unfold uniqueSorted
  rw [(List.perm_insertionSort _ _).mem_iff, List.mem_dedup, List.mem_filter,
    List.mem_filterMap]
  constructor
  · rintro ⟨⟨x, hx, hxa⟩, h0⟩
    cases x with
    | none => simp at hxa
    | some b =>
      simp at hxa
      subst hxa
      exact ⟨hx, by simpa using h0⟩
  · rintro ⟨h1, h2⟩
    exact ⟨⟨some a, h1, rfl⟩, by simpa using h2⟩

/-- A clamped copy of any member of the raw preset list is a member of
the first `uniqueSorted` pass (the clamp keeps it above the positive
floor `1000`). -/
theorem mem_uniqueSorted_clamped (arr : List (Option ℚ)) (d s : ℚ) (hd : some d ∈ arr) :
    max 1000 (min s d) ∈
      uniqueSorted (arr.map fun x => x.map fun v => max 1000 (min s v)) := by
  rw [mem_uniqueSorted]
  constructor
  · exact List.mem_map.mpr ⟨some d, hd, rfl⟩
  · exact lt_of_lt_of_le (by norm_num) (le_max_left _ _)

theorem uniqueSorted_push_span_ne_nil (out : List ℚ) (s a : ℚ)
    (ha : a ∈ out) (h0 : 0 < a) :
    uniqueSorted ((if out.getLast? = some s then out else out ++ [s]).map some) ≠ [] := by
  have hmem : a ∈ (if out.getLast? = some s then out else out ++ [s]) := by
    split
    · exact ha
    · exact List.mem_append_left _ ha
  exact List.ne_nil_of_mem ((mem_uniqueSorted _ a).mpr ⟨List.mem_map_of_mem some hmem, h0⟩)

/-- The main preset pipeline never returns the empty list at the default
floor `1000`: the clamped `maxDiff` entry survives the positivity
filter. -/
theorem computeGapPresetsMain_ne_nil (e l : ℚ → ℚ) (steps topK : ℕ) (items : List Item) :
    computeGapPresetsMain e l steps topK 1000 items ≠ [] := by
  simp only [computeGapPresetsMain]
  apply uniqueSorted_push_span_ne_nil
  · apply mem_uniqueSorted_clamped
    exact List.mem_append_right _ (List.mem_cons_self _ _)
  · exact lt_of_lt_of_le (by norm_num) (le_max_left _ _)

/-- At `c8Items` the generator's output is independent of the
`Math.exp`/`Math.log` model: `minFloorMs = upper = 1000`, so each sample
`Math.max(1000, Math.min(1000, t))` equals `1000` whatever `t` is. -/
theorem computeGapPresets_c8_indep (e l : ℚ → ℚ) :
    computeGapPresetsFromItems e l c8Items = [1000] := by
  have hclamp : ∀ t : ℚ, max 1000 (min 1000 t) = 1000 := fun t => max_eq_left (min_le_left _ _)
  simp only [computeGapPresetsFromItems, computeGapPresetsCore, computeGapPresetsMain,
    usableDeltas, c8Items]
  norm_num [List.insertionSort, List.orderedInsert, hclamp]
  decide

/-- Counterexample to claim C8 as stated: for the input `c8Items` the
Preset Generator returns the single-element list `[1000]`, so its output
does not always have at least two elements. -/
theorem claim_C8_counterexample :
    computeGapPresetsFromItems jsExpModel jsLogModel c8Items = [1000] ∧
    (computeGapPresetsFromItems jsExpModel jsLogModel c8Items).length < 2 := by
  refine ⟨computeGapPresets_c8_indep _ _, ?_⟩
  rw [computeGapPresets_c8_indep]
  decide

/-- Claim C8, amended: for every input items list the Preset Generator
returns a list of candidate gap thresholds that is sorted ascending,
contains no duplicates, and is nonempty (at least two elements does not
hold in general, see `claim_C8_counterexample`). -/
theorem claim_C8_presetShape (e l : ℚ → ℚ) (items : List Item) :
    (computeGapPresetsFromItems e l items).Sorted (· ≤ ·) ∧
    (computeGapPresetsFromItems e l items).Nodup ∧
    computeGapPresetsFromItems e l items ≠ [] := by
  have hform : ∃ arr, computeGapPresetsFromItems e l items = uniqueSorted arr := by
    unfold computeGapPresetsFromItems computeGapPresetsCore
    split
    · exact ⟨_, rfl⟩
    · unfold computeGapPresetsMain
      exact ⟨_, rfl⟩
  obtain ⟨arr, harr⟩ := hform
  refine ⟨harr ▸ uniqueSorted_sorted arr, harr ▸ uniqueSorted_nodup arr, ?_⟩
  unfold computeGapPresetsFromItems computeGapPresetsCore
  split
  · decide
  · exact computeGapPresetsMain_ne_nil e l 11 6 items

/-- At `c9Items` the generator's output is independent of the
`Math.exp`/`Math.log` model (same clamping argument as at `c8Items`:
`minDiff = upper = 1000`). -/
theorem computeGapPresets_c9_indep (e l : ℚ → ℚ) :
    computeGapPresetsFromItems e l c9Items = [1000] := by
  have hclamp : ∀ t : ℚ, max 1000 (min 1000 t) = 1000 := fun t => max_eq_left (min_le_left _ _)
  simp only [computeGapPresetsFromItems, computeGapPresetsCore, computeGapPresetsMain,
    usableDeltas, c9Items]
  norm_num [List.insertionSort, List.orderedInsert, hclamp]
  decide

/-- Counterexample to claim C9 as stated: `c9Items` has fewer than 2
usable (positive) deltas, yet the Preset Generator does not return the
fixed fallback preset set - the sparse-data check tests the number of
timestamps (`ts.length < 2`), not the number of usable deltas. -/
theorem claim_C9_counterexample :
    (usableDeltas c9Items).length < 2 ∧
    computeGapPresetsFromItems jsExpModel jsLogModel c9Items = [1000] ∧
    computeGapPresetsFromItems jsExpModel jsLogModel c9Items ≠
      [1000, 2000, 5000, 10000, 30000, 60000] := by
  refine ⟨by decide, computeGapPresets_c9_indep _ _, ?_⟩
  rw [computeGapPresets_c9_indep]
  decide

/-- Claim C9, amended: for every input with fewer than two items (hence
fewer than two finite timestamps) the Preset Generator returns the fixed
fallback preset set 1s, 2s, 5s, 10s, 30s, 60s. -/
theorem claim_C9_fallback (e l : ℚ → ℚ) (items : List Item) (h : items.length < 2) :
    computeGapPresetsFromItems e l items = [1000, 2000, 5000, 10000, 30000, 60000] := by
  unfold computeGapPresetsFromItems computeGapPresetsCore
  have hl : (List.insertionSort (· ≤ ·) (items.map (·.ts))).length < 2 := by
    rw [List.length_insertionSort, List.length_map]
    exact h
  rw [if_pos hl]
  decide

theorem claim_C9_fallback_witness :
    ([] : List Item).length < 2 ∧
    computeGapPresetsFromItems jsExpModel jsLogModel [] =
      [1000, 2000, 5000, 10000, 30000, 60000] :=
  ⟨by decide, claim_C9_fallback jsExpModel jsLogModel [] (by decide)⟩

theorem NormalSeg.ne_ddot {c : PathSeg} (h : NormalSeg c) : c ≠ ddot :=
  fun hc => h.2.2.1 (hc ▸ List.prefix_refl _)

/-- `normComp` only ever emits plain components. -/
theorem normComp_comps (p : AbsPath) :
    ∀ c ∈ normComp p, c ≠ dot1 ∧ c ≠ ddot ∧ c ≠ [] := by
  unfold normComp
  suffices h : ∀ acc, (∀ c ∈ acc, c ≠ dot1 ∧ c ≠ ddot ∧ c ≠ []) →
      ∀ c ∈ p.foldl (fun acc c =>
        if c = dot1 ∨ c = [] then acc
        else if c = ddot then acc.dropLast
        else acc ++ [c]) acc, c ≠ dot1 ∧ c ≠ ddot ∧ c ≠ [] by
    exact h [] (by simp)
  induction p with
  | nil => intro acc hacc; simpa using hacc
  | cons a p ih =>
    intro acc hacc c hc
    simp only [List.foldl_cons] at hc
    by_cases h1 : a = dot1 ∨ a = []
    · rw [if_pos h1] at hc
      exact ih acc hacc c hc
    · rw [if_neg h1] at hc
      by_cases h2 : a = ddot
      · rw [if_pos h2] at hc
        exact ih acc.dropLast (fun d hd => hacc d ((List.dropLast_sublist acc).subset hd)) c hc
      · rw [if_neg h2] at hc
        refine ih (acc ++ [a]) ?_ c hc
        intro d hd
        rcases List.mem_append.mp hd with hd | hd
        · exact hacc d hd
        · simp at hd
          subst hd
          exact ⟨fun h => h1 (Or.inl h), h2, fun h => h1 (Or.inr h)⟩

/-- `normComp` fixes a path made of plain components (starting from any
accumulator). -/
theorem normComp_foldl_fix (p : AbsPath)
    (hp : ∀ c ∈ p, c ≠ dot1 ∧ c ≠ ddot ∧ c ≠ []) :
    ∀ acc, p.foldl (fun acc c =>
      if c = dot1 ∨ c = [] then acc
      else if c = ddot then acc.dropLast
      else acc ++ [c]) acc = acc ++ p := by
  induction p with
  | nil => intro acc; simp
  | cons a p ih =>
    intro acc
    obtain ⟨h1, h2, h3⟩ := hp a (by simp)
    simp only [List.foldl_cons, if_neg (by tauto : ¬(a = dot1 ∨ a = [])), if_neg h2]
    rw [ih (fun c hc => hp c (by simp [hc]))]
    simp

theorem normComp_fixpoint (p : AbsPath)
    (hp : ∀ c ∈ p, c ≠ dot1 ∧ c ≠ ddot ∧ c ≠ []) : normComp p = p := by
  unfold normComp
  simpa using normComp_foldl_fix p hp []

theorem normComp_idem (p : AbsPath) : normComp (normComp p) = normComp p :=
  normComp_fixpoint _ (normComp_comps p)

/-- Appending plain components commutes with resolution. -/
theorem normComp_append (p q : AbsPath)
    (hq : ∀ c ∈ q, c ≠ dot1 ∧ c ≠ ddot ∧ c ≠ []) :
    normComp (p ++ q) = normComp p ++ q := by
  unfold normComp
  rw [List.foldl_append]
  exact normComp_foldl_fix q hq _

theorem commonPrefixLength_le_left (f t : AbsPath) :
    commonPrefixLength f t ≤ f.length := by
  induction f generalizing t with
  | nil => simp [commonPrefixLength]
  | cons a as ih =>
    cases t with
    | nil => simp [commonPrefixLength]
    | cons b bs =>
      by_cases h : a = b
      · simp only [commonPrefixLength, if_pos h, List.length_cons]
        exact Nat.succ_le_succ (ih bs)
      · simp [commonPrefixLength, h]

theorem commonPrefixLength_append (f q : AbsPath) :
    commonPrefixLength f (f ++ q) = f.length := by
  induction f with
  | nil => cases q <;> simp [commonPrefixLength]
  | cons a as ih => simp [commonPrefixLength, ih]

theorem prefix_of_commonPrefixLength (f t : AbsPath)
    (h : commonPrefixLength f t = f.length) : f <+: t := by
  induction f generalizing t with
  | nil => simp
  | cons a as ih =>
    cases t with
    | nil => simp [commonPrefixLength] at h
    | cons b bs =>
      by_cases hab : a = b
      · subst hab
        simp only [commonPrefixLength, if_pos rfl, List.length_cons] at h
        exact List.cons_prefix_cons.mpr ⟨rfl, ih bs (Nat.succ_injective h)⟩
      · simp [commonPrefixLength, hab] at h

/-- `path.relative(root, root ++ tail) = tail` for plain components. -/
theorem pathRelative_append (root tail : AbsPath)
    (hroot : normComp root = root)
    (htail : ∀ c ∈ tail, c ≠ dot1 ∧ c ≠ ddot ∧ c ≠ []) :
    pathRelative root (root ++ tail) = tail := by
  simp only [pathRelative]
  rw [hroot, normComp_append root tail htail, hroot, commonPrefixLength_append]
  simp

theorem interSlash_ne_nil (c : PathSeg) (rest : List PathSeg) (hc : c ≠ []) :
    interSlash (c :: rest) ≠ [] := by
  cases rest with
  | nil => simpa [interSlash] using hc
  | cons d ds => simp [interSlash]

theorem headD_interSlash (c : PathSeg) (rest : List PathSeg) (hc : c ≠ []) :
    (interSlash (c :: rest)).headD ' ' = c.headD ' ' := by
  cases rest with
  | nil => simp [interSlash]
  | cons d ds =>
    cases c with
    | nil => exact absurd rfl hc
    | cons x xs => simp [interSlash]

theorem ddot_not_prefix_interSlash (c : PathSeg) (rest : List PathSeg)
    (hc : c ≠ []) (hpre : ¬ (ddot <+: c)) :
    ¬ (ddot <+: interSlash (c :: rest)) := by
  cases rest with
  | nil => simpa [interSlash] using hpre
  | cons d ds =>
    intro h
    cases c with
    | nil => exact hc rfl
    | cons x xs =>
      cases xs with
      | nil =>
        simp only [interSlash, List.cons_append, List.nil_append] at h
        rw [show ddot = '.' :: '.' :: [] from rfl, List.cons_prefix_cons] at h
        obtain ⟨hx, h⟩ := h
        rw [List.cons_prefix_cons] at h
        exact absurd h.1.symm (by decide)
      | cons y ys =>
        simp only [interSlash, List.cons_append] at h
        rw [show ddot = '.' :: '.' :: [] from rfl, List.cons_prefix_cons] at h
        obtain ⟨hx, h⟩ := h
        rw [List.cons_prefix_cons] at h
        obtain ⟨hy, h⟩ := h
        subst hx
        subst hy
        exact hpre (by simp [ddot, List.cons_prefix_cons])

theorem ddot_prefix_interSlash_ddot (rest : List PathSeg) :
    ddot <+: interSlash (ddot :: rest) := by
  cases rest with
  | nil => simp [interSlash]
  | cons d ds => simp [interSlash, ddot]

/-- When the candidate `root ++ suffix` does not resolve to a strict
descendant of the root, `path.relative` yields the empty string or a
string beginning with `".."`. -/
theorem pathRelative_outside (root suffix : AbsPath) (hroot : normComp root = root)
    (hout : ¬ (root <+: normComp (root ++ suffix) ∧ normComp (root ++ suffix) ≠ root)) :
    interSlash (pathRelative root (root ++ suffix)) = [] ∨
    ddot <+: interSlash (pathRelative root (root ++ suffix)) := by
  simp only [pathRelative, hroot]
  by_cases hfull : commonPrefixLength root (normComp (root ++ suffix)) = root.length
  · have hpre : root <+: normComp (root ++ suffix) :=
      prefix_of_commonPrefixLength root _ hfull
    have hpeq : normComp (root ++ suffix) = root := by
      by_contra hne
      exact hout ⟨hpre, hne⟩
    left
    rw [hpeq] at hfull ⊢
    rw [hfull]
    simp [interSlash]
  · have hlt : commonPrefixLength root (normComp (root ++ suffix)) < root.length :=
      lt_of_le_of_ne (commonPrefixLength_le_left root _) hfull
    right
    have hsucc : root.length - commonPrefixLength root (normComp (root ++ suffix)) =
        (root.length - commonPrefixLength root (normComp (root ++ suffix)) - 1) + 1 := by
      omega
    rw [hsucc, List.replicate_succ]
    simpa [List.cons_append] using
      ddot_prefix_interSlash_ddot
        (List.replicate (root.length - commonPrefixLength root (normComp (root ++ suffix)) - 1)
            ddot ++
          (normComp (root ++ suffix)).drop
            (commonPrefixLength root (normComp (root ++ suffix))))

/-! ### Claim C1 -/

/-- Claim C1: for every declared root and every candidate path formed by
appending a `..`-laden relative suffix to the root (i.e. any path that
does not resolve to a strict path-level descendant of the root), the
Companion Resolver and the trash-move reject the path (the resolver's
`assertInsideRoot` throws "primaryPath is outside sourceRoot", the mover
throws `OUTSIDE_ROOT`) and neither returns nor moves anything. -/
theorem claim_C1_rootContainment (root suffix : AbsPath)
    (index : List ((List Char) × AbsPath)) (jpeg : Bool)
    (fs : FS) (trashDir : AbsPath) (now : ℕ)
    (hroot : normComp root = root)
    (hout : ¬ (root <+: normComp (root ++ suffix) ∧ normComp (root ++ suffix) ≠ root)) :
    resolveCompanions (root ++ suffix) root index jpeg =
      .error "primaryPath is outside sourceRoot" ∧
    moveToTrashPreserveRel fs (root ++ suffix) root trashDir now =
      .error "OUTSIDE_ROOT" := by
  have hrel := pathRelative_outside root suffix hroot hout
  have hassert : assertInsideRoot (root ++ suffix) root =
      Except.error "primaryPath is outside sourceRoot" := by
    have hsame : pathRelative (normComp root) (normComp (root ++ suffix)) =
        pathRelative root (root ++ suffix) := by
      simp only [pathRelative, normComp_idem, hroot]
    rcases hrel with h | h
    · simp [assertInsideRoot, hsame, h]
    · simp [assertInsideRoot, hsame, h]
  constructor
  · simp [resolveCompanions, hassert]
  · rcases hrel with h | h
    · simp [moveToTrashPreserveRel, h]
    · simp [moveToTrashPreserveRel, h]

theorem claim_C1_rootContainment_witness :
    (normComp ["r".toList] = ["r".toList] ∧
      ¬ (["r".toList] <+: normComp (["r".toList] ++ [ddot, "x".toList]) ∧
        normComp (["r".toList] ++ [ddot, "x".toList]) ≠ ["r".toList])) ∧
    resolveCompanions (["r".toList] ++ [ddot, "x".toList]) ["r".toList] [] true =
      .error "primaryPath is outside sourceRoot" ∧
    moveToTrashPreserveRel [] (["r".toList] ++ [ddot, "x".toList]) ["r".toList]
        ["r".toList, trashDirName] 0 = .error "OUTSIDE_ROOT" :=
  ⟨⟨by decide, by decide⟩,
    claim_C1_rootContainment ["r".toList] [ddot, "x".toList] [] true []
      ["r".toList, trashDirName] 0 (by decide) (by decide)⟩

/-! ### Claim C5 -/

/-- The three containment checks of `moveToTrashPreserveRel` all pass on
a joined relative path of plain components. -/
theorem relStr_checks (l : List PathSeg) (hne : l ≠ []) (hl : ∀ c ∈ l, NormalSeg c) :
    interSlash l ≠ [] ∧ ¬ (ddot <+: interSlash l) ∧ (interSlash l).headD ' ' ≠ '/' := by
  cases l with
  | nil => exact absurd rfl hne
  | cons c0 rest =>
    obtain ⟨hc0ne, _, hc0pre, hc0slash⟩ := hl c0 (by simp)
    refine ⟨interSlash_ne_nil c0 rest hc0ne,
      ddot_not_prefix_interSlash c0 rest hc0ne hc0pre, ?_⟩
    rw [headD_interSlash c0 rest hc0ne]
    cases c0 with
    | nil => exact absurd rfl hc0ne
    | cons x xs =>
      have hx : x ≠ '/' := fun h => hc0slash (by simp [h])
      simpa using hx

/-- Counterexample to claim C5 as stated: the single-file delete route
(`app/routes/delete.js`: `moveToTrash` with `trashRootForFile`) trashes
`root/sub/DSC001.ARW` into
`root/sub/.studio-helper-trash/<stamp>/DSC001.ARW` - the timestamped
trash directory is created next to the file's own directory, not
directly under the declared root, and the root-relative path is not
preserved beneath it. -/
theorem claim_C5_counterexample :
    moveToTrash [["root".toList, "sub".toList, "DSC001.ARW".toList]]
        ["root".toList, "sub".toList, "DSC001.ARW".toList]
        (trashRootForFile ["root".toList, "sub".toList, "DSC001.ARW".toList] ++
          ["stamp".toList]) 0 =
      .ok ([["root".toList, "sub".toList, trashDirName, "stamp".toList, "DSC001.ARW".toList]],
        ["root".toList, "sub".toList, trashDirName, "stamp".toList, "DSC001.ARW".toList]) ∧
    ["root".toList, "sub".toList, trashDirName, "stamp".toList, "DSC001.ARW".toList] ≠
      ["root".toList, trashDirName, "stamp".toList, "sub".toList, "DSC001.ARW".toList] := by
  exact ⟨rfl, by decide⟩

/-- Claim C5, amended: the session trash-move
(`moveToTrashPreserveRel`, used by `/api/delete-session`) moves
`root/sub/<name>` to `root/<trash>/<stamp>/sub/<name>` - one timestamped
trash directory directly under the declared root, relative path
preserved - and afterwards the file no longer exists at its source
path; the single-file delete route's `moveToTrash` instead moves it to
`root/sub/<trash>/<stamp>/<name>` (trash next to the file, basename
only), also removing the source. -/
theorem claim_C5_trashLayout (root sub : AbsPath) (name stamp stamp2 : PathSeg)
    (fs fs2 : FS) (now now2 : ℕ)
    (hroot : ∀ c ∈ root, NormalSeg c) (hsub : ∀ c ∈ sub, NormalSeg c)
    (hname : NormalSeg name)
    (hnd : fs.Nodup) (hsrc : root ++ sub ++ [name] ∈ fs)
    (hfresh : root ++ [trashDirName, stamp] ++ sub ++ [name] ∉ fs)
    (hnd2 : fs2.Nodup) (hsrc2 : root ++ sub ++ [name] ∈ fs2)
    (hfresh2 : root ++ sub ++ [trashDirName, stamp2, name] ∉ fs2) :
    (∃ fs', moveToTrashPreserveRel fs (root ++ sub ++ [name]) root
        (root ++ [trashDirName, stamp]) now =
          .ok (fs', root ++ [trashDirName, stamp] ++ sub ++ [name]) ∧
        root ++ sub ++ [name] ∉ fs') ∧
    (∃ fs2', moveToTrash fs2 (root ++ sub ++ [name])
        (trashRootForFile (root ++ sub ++ [name]) ++ [stamp2]) now2 =
          .ok (fs2', root ++ sub ++ [trashDirName, stamp2, name]) ∧
        root ++ sub ++ [name] ∉ fs2') := by
  have hnorm : ∀ c ∈ sub ++ [name], c ≠ dot1 ∧ c ≠ ddot ∧ c ≠ [] := by
    intro c hc
    rcases List.mem_append.mp hc with hc | hc
    · exact ⟨(hsub c hc).2.1, (hsub c hc).ne_ddot, (hsub c hc).1⟩
    · simp at hc
      subst hc
      exact ⟨hname.2.1, hname.ne_ddot, hname.1⟩
  have hrootfix : normComp root = root :=
    normComp_fixpoint root fun c hc =>
      ⟨(hroot c hc).2.1, (hroot c hc).ne_ddot, (hroot c hc).1⟩
  have hall : ∀ c ∈ sub ++ [name], NormalSeg c := by
    intro c hc
    rcases List.mem_append.mp hc with hc | hc
    · exact hsub c hc
    · simp at hc
      subst hc
      exact hname
  have hrel2 : pathRelative root (root ++ (sub ++ [name])) = sub ++ [name] :=
    pathRelative_append root (sub ++ [name]) hrootfix hnorm
  obtain ⟨hne, hnp, hnh⟩ := relStr_checks (sub ++ [name]) (by simp) hall
  have hnh2 : (interSlash (sub ++ [name])).head?.getD ' ' ≠ '/' := by
    simpa [List.headD_eq_head?_getD] using hnh
  constructor
  · have hsrcm : root ++ (sub ++ [name]) ∈ fs := by simpa using hsrc
    have hfreshm : root ++ trashDirName :: stamp :: (sub ++ [name]) ∉ fs := by
      simpa using hfresh
    refine ⟨((fs.erase (root ++ sub ++ [name])).erase
        (root ++ [trashDirName, stamp] ++ sub ++ [name])) ++
          [root ++ [trashDirName, stamp] ++ sub ++ [name]], ?_, ?_⟩
    · simp [moveToTrashPreserveRel, hrel2, hne, hnp, hnh2, hsrcm, hfreshm]
    · intro hmem
      rcases List.mem_append.mp hmem with hmem | hmem
      · exact hnd.not_mem_erase ((List.erase_sublist _ _).subset hmem)
      · simp at hmem
        have := congrArg List.length hmem
        simp at this
  · have hbase : basenameP (root ++ (sub ++ [name])) = name := by
      simp [basenameP]
    have hsrcm2 : root ++ (sub ++ [name]) ∈ fs2 := by simpa using hsrc2
    have hfreshm2 : root ++ (sub ++ trashDirName :: stamp2 :: [name]) ∉ fs2 := by
      simpa using hfresh2
    refine ⟨((fs2.erase (root ++ sub ++ [name])).erase
        (root ++ sub ++ [trashDirName, stamp2, name])) ++
          [root ++ sub ++ [trashDirName, stamp2, name]], ?_, ?_⟩
    · simp [moveToTrash, hbase, trashRootForFile, hsrcm2, hfreshm2]
    · intro hmem
      rcases List.mem_append.mp hmem with hmem | hmem
      · exact hnd2.not_mem_erase ((List.erase_sublist _ _).subset hmem)
      · simp at hmem

/-! ### Filename lemmas (for claims C4 and C10) -/

theorem stripExt_append_extname (s : List Char) : stripExt s ++ extname s = s := by
  unfold stripExt extname
  have hsplit := List.takeWhile_append_dropWhile (fun c => c != '.') s.reverse
  cases hdw : s.reverse.dropWhile fun c => c != '.' with
  | nil => simp [hdw]
  | cons d rest2 =>
    by_cases h2 : rest2 = []
    · simp [hdw, h2]
    · have hd : d = '.' := by
        have := List.head_dropWhile_not (fun c => c != '.') s.reverse (by simp [hdw])
        simpa [hdw] using this
      simp only [hdw, if_neg h2]
      set P := (s.reverse.takeWhile fun c => c != '.').reverse with hP
      have hs : s = rest2.reverse ++ '.' :: P := by
        conv_lhs => rw [← s.reverse_reverse, ← hsplit]
        rw [hdw, hd]
        simp [hP]
      rw [hs]
      have hlen : (rest2.reverse ++ '.' :: P).length - ('.' :: P).length =
          rest2.reverse.length := by
        simp
      rw [hlen, List.take_left]

theorem extname_shape (s : List Char) :
    extname s = [] ∨ ∃ e, extname s = '.' :: e ∧ '.' ∉ e := by
  unfold extname
  cases hdw : s.reverse.dropWhile fun c => c != '.' with
  | nil => simp [hdw]
  | cons d rest2 =>
    by_cases h2 : rest2 = []
    · simp [hdw, h2]
    · right
      refine ⟨(s.reverse.takeWhile fun c => c != '.').reverse, by simp [hdw, h2], ?_⟩
      intro hmem
      have := List.mem_takeWhile_imp (List.mem_reverse.mp hmem)
      simp at this

theorem lower_append (a b : List Char) : lower (a ++ b) = lower a ++ lower b :=
  List.map_append _ a b

/-- `Char.toLower` fixes `'.'` and maps no other character to it. -/
theorem toLower_eq_dot (c : Char) : c.toLower = '.' ↔ c = '.' := by
  constructor
  · intro h
    by_cases hrange : c.toNat ≥ 65 ∧ c.toNat ≤ 90
    · exfalso
      simp only [Char.toLower, hrange, and_self, if_true] at h
      have hval : (Char.ofNat (c.toNat + 32)).toNat = c.toNat + 32 := by
        have hvalid : (c.toNat + 32).isValidChar := by
          left
          omega
        rw [Char.ofNat, dif_pos hvalid]
        rfl
      rw [h] at hval
      have hdot : ('.' : Char).toNat = 46 := by decide
      omega
    · simpa only [Char.toLower, hrange, if_false] using h
  · intro h
    subst h
    decide

theorem takeWhile_ne_dot_lower (l : List Char) :
    (l.map Char.toLower).takeWhile (fun c => c != '.') =
      (l.takeWhile fun c => c != '.').map Char.toLower := by
  induction l with
  | nil => rfl
  | cons a l ih =>
    by_cases ha : a = '.'
    · subst ha
      simp [List.takeWhile_cons]
    · have ha2 : a.toLower ≠ '.' := fun h => ha ((toLower_eq_dot a).mp h)
      simp [List.takeWhile_cons, ha, ha2, ih]

theorem dropWhile_ne_dot_lower (l : List Char) :
    (l.map Char.toLower).dropWhile (fun c => c != '.') =
      (l.dropWhile fun c => c != '.').map Char.toLower := by
  induction l with
  | nil => rfl
  | cons a l ih =>
    by_cases ha : a = '.'
    · subst ha
      simp [List.dropWhile_cons]
    · have ha2 : a.toLower ≠ '.' := fun h => ha ((toLower_eq_dot a).mp h)
      simp [List.dropWhile_cons, ha, ha2, ih]

/-- Lowering a name does not move its dots. -/
theorem extname_lower (s : List Char) : extname (lower s) = lower (extname s) := by
  simp only [extname, lower]
  rw [← List.map_reverse, dropWhile_ne_dot_lower]
  cases hcase : s.reverse.dropWhile fun c => c != '.' with
  | nil => simp
  | cons d rest2 =>
    by_cases h2 : rest2 = []
    · simp [h2]
    · have hne : List.map Char.toLower rest2 ≠ [] := by
        intro hmap
        rcases rest2 with _ | _
        · exact h2 rfl
        · simp at hmap
      have hdot : ('.' : Char).toLower = '.' := by decide
      simp only [List.map_cons, if_neg h2, if_neg hne]
      rw [takeWhile_ne_dot_lower]
      simp [hdot, List.map_reverse]

/-- The extension of `w ++ "." ++ e` is `"." ++ e` when `e` is dot-free
and `w` is nonempty. -/
theorem extname_append_ext (w e : List Char) (hw : w ≠ []) (he : '.' ∉ e) :
    extname (w ++ '.' :: e) = '.' :: e := by
  have hrev : (w ++ '.' :: e).reverse = e.reverse ++ '.' :: w.reverse := by
    simp
  have hall : ∀ c ∈ e.reverse, (c != '.') = true := by
    intro c hc
    have : c ≠ '.' := fun h => he (h ▸ List.mem_reverse.mp hc)
    simpa using this
  have htw : (e.reverse ++ '.' :: w.reverse).takeWhile (fun c => c != '.') = e.reverse := by
    rw [List.takeWhile_append]
    rw [List.takeWhile_eq_self_iff.mpr hall]
    simp [List.takeWhile_cons]
  have hdw : (e.reverse ++ '.' :: w.reverse).dropWhile (fun c => c != '.') = '.' :: w.reverse := by
    rw [List.dropWhile_append]
    rw [List.dropWhile_eq_nil_iff.mpr hall]
    simp [List.dropWhile_cons]
  simp only [extname]
  rw [hrev, htw, hdw]
  have hwne : w.reverse ≠ [] := by simpa using hw
  simp [hwne]

theorem basenameP_entryPath (root : AbsPath) (f : FEntry) :
    basenameP (entryPath root f) = f.name := by
  simp only [basenameP, entryPath]
  exact List.getLastD_concat _ _ _

theorem DotTail_append (a b : List Char) (ha : DotTail a) (hb : DotTail b) :
    DotTail (a ++ b) := by
  rcases ha with ha | ha
  · subst ha
    simpa using hb
  · cases a with
    | nil => simpa using hb
    | cons x xs => exact Or.inr (by simpa using ha)

theorem DotTail_lower_extname (s : List Char) : DotTail (lower (extname s)) := by
  rcases extname_shape s with h | ⟨e, h, _⟩
  · exact Or.inl (by simp [h, lower])
  · exact Or.inr (by simp [h, lower, toLower_eq_dot])

theorem assertInsideRoot_ok (absPath absRoot : AbsPath) (v : AbsPath × AbsPath)
    (h : assertInsideRoot absPath absRoot = .ok v) :
    v = (normComp absRoot, normComp absPath) := by
  simp only [assertInsideRoot] at h
  split at h
  · exact absurd h (by simp)
  · cases h
    rfl

theorem mem_idxGet_build (sourceRoot : AbsPath) (ij : Bool) (files : List FEntry)
    (k : List Char) (c : AbsPath) (hc : c ∈ idxGet (buildCompanionIndex sourceRoot ij files) k) :
    ∃ f ∈ files,
      c = entryPath (normComp sourceRoot) f ∧
      lower (stripExt f.name) = k ∧
      isHiddenName f.name = false ∧
      (isXmpName (lower f.name) || isOnArtifactNameLower (lower f.name) ||
        (ij && isJpegName (lower f.name))) = true := by
  unfold idxGet buildCompanionIndex at hc
  simp only [List.mem_map, List.mem_filter] at hc
  obtain ⟨pair, ⟨⟨f, ⟨hf, hcond⟩, hpair⟩, hkey⟩, hc2⟩ := hc
  subst hpair
  simp only [beq_iff_eq] at hkey
  simp only [Bool.and_eq_true, Bool.not_eq_true'] at hcond
  refine ⟨f, hf, ?_, ?_, hcond.1.1.2, hcond.1.2⟩
  · exact hc2.symm
  · simpa using hkey

/-- Inversion for `resolveCompanions`: every returned companion comes
from one of the four match rules. -/
theorem resolveCompanions_ok_cases (primary root : AbsPath)
    (index : List ((List Char) × AbsPath)) (jpeg : Bool) (cs : List AbsPath) (c : AbsPath)
    (hres : resolveCompanions primary root index jpeg = .ok cs) (hc : c ∈ cs) :
    (c ∈ idxGet index (makeKeys (basenameP (normComp primary))).baseKey ∧
      lower (basenameP c) =
        lower (makeKeys (basenameP (normComp primary))).base ++ XMP_EXT) ∨
    (c ∈ idxGet index (makeKeys (basenameP (normComp primary))).fullKey ∧
      lower (basenameP c) =
        lower (makeKeys (basenameP (normComp primary))).full ++ XMP_EXT) ∨
    (∃ k ∈ [(makeKeys (basenameP (normComp primary))).baseKey,
        (makeKeys (basenameP (normComp primary))).fullKey,
        (makeKeys (basenameP (normComp primary))).baseKey ++ ".on1".toList,
        (makeKeys (basenameP (normComp primary))).fullKey ++ ".on1".toList,
        (makeKeys (basenameP (normComp primary))).baseKey ++ ".onphoto".toList,
        (makeKeys (basenameP (normComp primary))).fullKey ++ ".onphoto".toList],
      c ∈ idxGet index k ∧
      isOnArtifactNameLower (lower (basenameP c)) = true ∧
      belongsToBaseOrFull (basenameP c) (makeKeys (basenameP (normComp primary))).base
        (makeKeys (basenameP (normComp primary))).full = true) ∨
    (isRawName (basenameP (normComp primary)) = true ∧
      c ∈ idxGet index (makeKeys (basenameP (normComp primary))).baseKey ∧
      (lower (basenameP c) =
          lower (makeKeys (basenameP (normComp primary))).base ++ ".jpg".toList ∨
        lower (basenameP c) =
          lower (makeKeys (basenameP (normComp primary))).base ++ ".jpeg".toList)) := by
  unfold resolveCompanions at hres
  cases hassert : assertInsideRoot primary root with
  | error e =>
    rw [hassert] at hres
    exact absurd hres (by simp)
  | ok v =>
    have hv := assertInsideRoot_ok primary root v hassert
    subst hv
    rw [hassert] at hres
    simp only at hres
    cases hres
    rw [List.mem_dedup] at hc
    simp only [List.mem_append] at hc
    rcases hc with ((hc | hc) | hc) | hc
    · left
      rw [List.mem_filter] at hc
      exact ⟨hc.1, by simpa using hc.2⟩
    · right; left
      rw [List.mem_filter] at hc
      exact ⟨hc.1, by simpa using hc.2⟩
    · right; right; left
      simp only [List.mem_flatten, List.mem_map] at hc
      obtain ⟨bucket, ⟨k, hk, hbucket⟩, hcb⟩ := hc
      subst hbucket
      rw [List.mem_filter] at hcb
      refine ⟨k, by simpa using hk, hcb.1, ?_, ?_⟩
      · have := hcb.2
        simp only [Bool.and_eq_true] at this
        exact this.1.2
      · have := hcb.2
        simp only [Bool.and_eq_true] at this
        exact this.2
    · right; right; right
      by_cases hraw : (jpeg && isRawName (basenameP (normComp primary))) = true
      · rw [if_pos hraw] at hc
        rw [List.mem_filter] at hc
        simp only [Bool.and_eq_true] at hraw
        refine ⟨hraw.2, hc.1, ?_⟩
        have := hc.2
        simpa using this
      · rw [if_neg hraw] at hc
        exact absurd hc (by simp)

/-! ### Claims C4 and C10 -/

/-- Counterexample to claim C4 as stated: for primary `DSC1.ARW` the
index built over the single file `dsc1.xmp` yields `dsc1.xmp` as a
companion (the exact sidecar match is case-insensitive), although
`dsc1.xmp` does not literally start with the primary's base name `DSC1`
nor its full name `DSC1.ARW`. -/
theorem claim_C4_counterexample :
    resolveCompanions ["r".toList, "DSC1.ARW".toList] ["r".toList]
        (buildCompanionIndex ["r".toList] true [⟨[], "dsc1.xmp".toList⟩]) true =
      .ok [["r".toList, "dsc1.xmp".toList]] ∧
    ¬ ("DSC1".toList <+: "dsc1.xmp".toList) ∧
    ¬ ("DSC1.ARW".toList <+: "dsc1.xmp".toList) :=
  ⟨rfl, by decide, by decide⟩

/-- Claim C4, amended: with an index built by the Companion Index
Builder, the Companion Resolver accepts a candidate only if the
candidate's filename starts - case-insensitively - with the primary's
base name, followed by nothing or by a dot-initiated tail (exact
sidecar and raster-rendition matches compare whole names
case-insensitively; artifact matches additionally require the
case-sensitive `belongsToBaseOrFull` prefix).  In particular, for a
primary with base name `DSC1` a candidate named `DSC10.xxx` is never
returned, and for primary `DSC001.ARW` a file `DSC0010.xmp` is never
returned. -/
theorem claim_C4_prefixGuard (root : AbsPath) (ij jpeg : Bool) (files : List FEntry)
    (primary : AbsPath) (cs : List AbsPath) (c : AbsPath)
    (hres : resolveCompanions primary root (buildCompanionIndex root ij files) jpeg = .ok cs)
    (hc : c ∈ cs) :
    (∃ rest, lower (basenameP c) =
        lower (makeKeys (basenameP (normComp primary))).base ++ rest ∧ DotTail rest) ∧
    (basenameP (normComp primary) = "DSC1.ARW".toList →
      ¬ ("DSC10".toList <+: basenameP c)) ∧
    (basenameP (normComp primary) = "DSC001.ARW".toList →
      lower (basenameP c) ≠ "dsc0010.xmp".toList) := by
  have hsplitFull : lower (makeKeys (basenameP (normComp primary))).full =
      lower (makeKeys (basenameP (normComp primary))).base ++
        lower (extname (makeKeys (basenameP (normComp primary))).full) := by
    conv_lhs => rw [← stripExt_append_extname (makeKeys (basenameP (normComp primary))).full]
    rw [lower_append]
    rfl
  have hmain : ∃ rest, lower (basenameP c) =
      lower (makeKeys (basenameP (normComp primary))).base ++ rest ∧ DotTail rest := by
    rcases resolveCompanions_ok_cases primary root _ jpeg cs c hres hc with
      ⟨_, h⟩ | ⟨_, h⟩ | ⟨k, hk, hck, _, _⟩ | ⟨_, _, h | h⟩
    · exact ⟨XMP_EXT, h, Or.inr (by decide)⟩
    · refine ⟨lower (extname (makeKeys (basenameP (normComp primary))).full) ++ XMP_EXT,
        by rw [h, hsplitFull, List.append_assoc], ?_⟩
      exact DotTail_append _ _ (DotTail_lower_extname _) (Or.inr (by decide))
    · obtain ⟨f, _, hcf, hkey, _, _⟩ := mem_idxGet_build root ij files k c hck
      have hbc : basenameP c = f.name := by rw [hcf, basenameP_entryPath]
      have hcn : lower (basenameP c) = k ++ lower (extname (basenameP c)) := by
        rw [hbc]
        conv_lhs => rw [← stripExt_append_extname f.name]
        rw [lower_append, hkey]
      have hbaseKey : (makeKeys (basenameP (normComp primary))).baseKey =
          lower (makeKeys (basenameP (normComp primary))).base := rfl
      have hfullKey : (makeKeys (basenameP (normComp primary))).fullKey =
          lower (makeKeys (basenameP (normComp primary))).full := rfl
      simp only [List.mem_cons, List.not_mem_nil, or_false] at hk
      rcases hk with hk | hk | hk | hk | hk | hk
      all_goals subst hk
      · exact ⟨lower (extname (basenameP c)), by rw [hcn, hbaseKey], DotTail_lower_extname _⟩
      · refine ⟨lower (extname (makeKeys (basenameP (normComp primary))).full) ++
          lower (extname (basenameP c)), ?_, ?_⟩
        · rw [hcn, hfullKey, hsplitFull, List.append_assoc]
        · exact DotTail_append _ _ (DotTail_lower_extname _) (DotTail_lower_extname _)
      · refine ⟨".on1".toList ++ lower (extname (basenameP c)), ?_, ?_⟩
        · rw [hcn, hbaseKey, List.append_assoc]
        · exact DotTail_append _ _ (Or.inr (by decide)) (DotTail_lower_extname _)
      · refine ⟨lower (extname (makeKeys (basenameP (normComp primary))).full) ++
          (".on1".toList ++ lower (extname (basenameP c))), ?_, ?_⟩
        · rw [hcn, hfullKey, hsplitFull, List.append_assoc, List.append_assoc]
        · exact DotTail_append _ _ (DotTail_lower_extname _)
            (DotTail_append _ _ (Or.inr (by decide)) (DotTail_lower_extname _))
      · refine ⟨".onphoto".toList ++ lower (extname (basenameP c)), ?_, ?_⟩
        · rw [hcn, hbaseKey, List.append_assoc]
        · exact DotTail_append _ _ (Or.inr (by decide)) (DotTail_lower_extname _)
      · refine ⟨lower (extname (makeKeys (basenameP (normComp primary))).full) ++
          (".onphoto".toList ++ lower (extname (basenameP c))), ?_, ?_⟩
        · rw [hcn, hfullKey, hsplitFull, List.append_assoc, List.append_assoc]
        · exact DotTail_append _ _ (DotTail_lower_extname _)
            (DotTail_append _ _ (Or.inr (by decide)) (DotTail_lower_extname _))
    · exact ⟨".jpg".toList, h, Or.inr (by decide)⟩
    · exact ⟨".jpeg".toList, h, Or.inr (by decide)⟩
  refine ⟨hmain, ?_, ?_⟩
  · intro hname hpre
    obtain ⟨t, ht⟩ := hpre
    obtain ⟨rest, hrest, hdt⟩ := hmain
    have hbase : lower (makeKeys (basenameP (normComp primary))).base = "dsc1".toList := by
      rw [hname]
      decide
    rw [hbase] at hrest
    have hlc : lower (basenameP c) = "dsc1".toList ++ '0' :: lower t := by
      rw [← ht, lower_append]
      rfl
    have hrest0 : rest = '0' :: lower t :=
      List.append_cancel_left (hrest.symm.trans hlc)
    rcases hdt with hdt | hdt
    · simp [hrest0] at hdt
    · rw [hrest0] at hdt
      simp at hdt
  · intro hname heq
    obtain ⟨rest, hrest, hdt⟩ := hmain
    have hbase : lower (makeKeys (basenameP (normComp primary))).base = "dsc001".toList := by
      rw [hname]
      decide
    rw [hbase] at hrest
    have hlc : "dsc0010.xmp".toList = "dsc001".toList ++ '0' :: ".xmp".toList := by decide
    rw [heq, hlc] at hrest
    have hrest0 : rest = '0' :: ".xmp".toList :=
      (List.append_cancel_left hrest).symm
    rcases hdt with hdt | hdt
    · simp [hrest0] at hdt
    · rw [hrest0] at hdt
      simp at hdt

theorem claim_C5_trashLayout_witness :
    ((∀ c ∈ [("root".toList : PathSeg)], NormalSeg c) ∧
      (∀ c ∈ [("sub".toList : PathSeg)], NormalSeg c) ∧
      NormalSeg "DSC001.ARW".toList ∧
      ([["root".toList, "sub".toList, "DSC001.ARW".toList]] : FS).Nodup ∧
      ["root".toList] ++ ["sub".toList] ++ ["DSC001.ARW".toList] ∈
        ([["root".toList, "sub".toList, "DSC001.ARW".toList]] : FS)) ∧
    (∃ fs', moveToTrashPreserveRel [["root".toList, "sub".toList, "DSC001.ARW".toList]]
        (["root".toList] ++ ["sub".toList] ++ ["DSC001.ARW".toList]) ["root".toList]
        (["root".toList] ++ [trashDirName, "stamp".toList]) 7 =
          .ok (fs', ["root".toList] ++ [trashDirName, "stamp".toList] ++ ["sub".toList] ++
            ["DSC001.ARW".toList]) ∧
        ["root".toList] ++ ["sub".toList] ++ ["DSC001.ARW".toList] ∉ fs') ∧
    (∃ fs2', moveToTrash [["root".toList, "sub".toList, "DSC001.ARW".toList]]
        (["root".toList] ++ ["sub".toList] ++ ["DSC001.ARW".toList])
        (trashRootForFile (["root".toList] ++ ["sub".toList] ++ ["DSC001.ARW".toList]) ++
          ["stamp".toList]) 7 =
          .ok (fs2', ["root".toList] ++ ["sub".toList] ++
            [trashDirName, "stamp".toList, "DSC001.ARW".toList]) ∧
        ["root".toList] ++ ["sub".toList] ++ ["DSC001.ARW".toList] ∉ fs2') :=
  ⟨⟨by decide, by decide, by decide, by decide, by decide⟩,
    claim_C5_trashLayout ["root".toList] ["sub".toList] "DSC001.ARW".toList
      "stamp".toList "stamp".toList
      [["root".toList, "sub".toList, "DSC001.ARW".toList]]
      [["root".toList, "sub".toList, "DSC001.ARW".toList]] 7 7
      (by decide) (by decide) (by decide) (by decide) (by decide) (by decide)
      (by decide) (by decide) (by decide)⟩

theorem claim_C4_prefixGuard_witness :
    (resolveCompanions ["r".toList, "DSC001.ARW".toList] ["r".toList]
        (buildCompanionIndex ["r".toList] true
          [⟨[], "DSC001.xmp".toList⟩, ⟨[], "DSC001.ARW.on1".toList⟩,
            ⟨[], "DSC001.jpg".toList⟩, ⟨[], "DSC0010.xmp".toList⟩]) true =
      .ok [["r".toList, "DSC001.xmp".toList], ["r".toList, "DSC001.ARW.on1".toList],
        ["r".toList, "DSC001.jpg".toList]] ∧
      (["r".toList, "DSC001.xmp".toList] : AbsPath) ∈
        [["r".toList, "DSC001.xmp".toList], ["r".toList, "DSC001.ARW.on1".toList],
          ["r".toList, "DSC001.jpg".toList]]) ∧
    ((∃ rest, lower (basenameP ["r".toList, "DSC001.xmp".toList]) =
        lower (makeKeys (basenameP
          (normComp ["r".toList, "DSC001.ARW".toList]))).base ++ rest ∧ DotTail rest) ∧
      (basenameP (normComp ["r".toList, "DSC001.ARW".toList]) = "DSC1.ARW".toList →
        ¬ ("DSC10".toList <+: basenameP ["r".toList, "DSC001.xmp".toList])) ∧
      (basenameP (normComp ["r".toList, "DSC001.ARW".toList]) = "DSC001.ARW".toList →
        lower (basenameP ["r".toList, "DSC001.xmp".toList]) ≠ "dsc0010.xmp".toList)) :=
  ⟨⟨rfl, by decide⟩,
    claim_C4_prefixGuard ["r".toList] true true
      [⟨[], "DSC001.xmp".toList⟩, ⟨[], "DSC001.ARW.on1".toList⟩,
        ⟨[], "DSC001.jpg".toList⟩, ⟨[], "DSC0010.xmp".toList⟩]
      ["r".toList, "DSC001.ARW".toList]
      [["r".toList, "DSC001.xmp".toList], ["r".toList, "DSC001.ARW.on1".toList],
        ["r".toList, "DSC001.jpg".toList]]
      ["r".toList, "DSC001.xmp".toList] rfl (by decide)⟩

/-- A name whose lower-casing is `w ++ "." ++ e` for dot-free `e` cannot
be a non-hidden RAW-extension name unless `"." ++ e` is a RAW extension. -/
theorem lower_eq_ext_raw_contra (n w e : List Char)
    (h : lower n = w ++ '.' :: e) (hdotfree : '.' ∉ e)
    (hraw : isRawName n = true) (hhid : isHiddenName n = false)
    (hnotraw : ('.' :: e) ∈ RAW_EXTS → False) : False := by
  by_cases hw : w = []
  · subst hw
    cases hn : n with
    | nil =>
      rw [hn] at h
      simp [lower] at h
    | cons c0 t =>
      rw [hn] at h
      have hc0 : c0.toLower = '.' := by
        have := congrArg (fun l => l.headD ' ') h
        simpa [lower] using this
      rw [hn, (toLower_eq_dot c0).mp hc0] at hhid
      simp [isHiddenName] at hhid
  · have hext : extname (lower n) = '.' :: e := by
      rw [h]
      exact extname_append_ext w e hw hdotfree
    rw [extname_lower] at hext
    unfold isRawName at hraw
    have hex : extLower n = '.' :: e := hext
    rw [hex] at hraw
    exact hnotraw (by simpa using hraw)

/-- Counterexample to claim C10 as stated: a primary that is itself an
`.xmp` sidecar is returned as its own companion by the exact-sidecar
rule, although its filename contains neither `.on1` nor `.onphoto`. -/
theorem claim_C10_counterexample :
    resolveCompanions ["r".toList, "a.xmp".toList] ["r".toList]
        (buildCompanionIndex ["r".toList] true [⟨[], "a.xmp".toList⟩]) true =
      .ok [["r".toList, "a.xmp".toList]] ∧
    isOnArtifactNameLower (lower (basenameP (normComp ["r".toList, "a.xmp".toList]))) =
      false ∧
    (["r".toList, "a.xmp".toList] : AbsPath) = normComp ["r".toList, "a.xmp".toList] :=
  ⟨rfl, by decide, by decide⟩

/-- Claim C10, amended: for every primary path whose filename contains
neither `.on1` nor `.onphoto` (case-insensitively) and whose lower-cased
filename does not end in `.xmp`, and every index produced by the
Companion Index Builder, the Companion Resolver's returned companion set
never contains the (resolved) primary path itself. -/
theorem claim_C10_noSelfCompanion (root : AbsPath) (ij jpeg : Bool) (files : List FEntry)
    (primary : AbsPath) (cs : List AbsPath) (c : AbsPath)
    (hres : resolveCompanions primary root (buildCompanionIndex root ij files) jpeg = .ok cs)
    (hart : isOnArtifactNameLower (lower (basenameP (normComp primary))) = false)
    (hxmp : ¬ (XMP_EXT <:+ lower (basenameP (normComp primary))))
    (hc : c ∈ cs) :
    c ≠ normComp primary := by
  intro heq
  rcases resolveCompanions_ok_cases primary root _ jpeg cs c hres hc with
    ⟨_, h⟩ | ⟨_, h⟩ | ⟨k, hk, hck, hart2, _⟩ | ⟨hraw, hck, h⟩
  · rw [heq] at h
    exact hxmp (h ▸ List.suffix_append _ _)
  · rw [heq] at h
    exact hxmp (h ▸ List.suffix_append _ _)
  · rw [heq] at hart2
    rw [hart] at hart2
    exact absurd hart2 (by simp)
  · obtain ⟨f, _, hcf, hkey, hhid, _⟩ := mem_idxGet_build root ij files _ c hck
    have hbc : basenameP c = f.name := by rw [hcf, basenameP_entryPath]
    have hfn : f.name = basenameP (normComp primary) := by rw [← hbc, heq]
    rw [hfn] at hhid
    rcases h with h | h
    · rw [heq] at h
      have hsp : ".jpg".toList = '.' :: "jpg".toList := rfl
      rw [hsp] at h
      exact lower_eq_ext_raw_contra _ _ _ h (by decide) hraw hhid (by decide)
    · rw [heq] at h
      have hsp : ".jpeg".toList = '.' :: "jpeg".toList := rfl
      rw [hsp] at h
      exact lower_eq_ext_raw_contra _ _ _ h (by decide) hraw hhid (by decide)

theorem claim_C10_noSelfCompanion_witness :
    (resolveCompanions ["r".toList, "DSC001.ARW".toList] ["r".toList]
        (buildCompanionIndex ["r".toList] true [⟨[], "DSC001.xmp".toList⟩]) true =
      .ok [["r".toList, "DSC001.xmp".toList]] ∧
      isOnArtifactNameLower (lower (basenameP
        (normComp ["r".toList, "DSC001.ARW".toList]))) = false ∧
      ¬ (XMP_EXT <:+ lower (basenameP (normComp ["r".toList, "DSC001.ARW".toList]))) ∧
      (["r".toList, "DSC001.xmp".toList] : AbsPath) ∈ [["r".toList, "DSC001.xmp".toList]]) ∧
    (["r".toList, "DSC001.xmp".toList] : AbsPath) ≠
      normComp ["r".toList, "DSC001.ARW".toList] :=
  ⟨⟨rfl, by decide, by decide, by decide⟩,
    claim_C10_noSelfCompanion ["r".toList] true true [⟨[], "DSC001.xmp".toList⟩]
      ["r".toList, "DSC001.ARW".toList] [["r".toList, "DSC001.xmp".toList]]
      ["r".toList, "DSC001.xmp".toList] rfl (by decide) (by decide) (by decide)⟩

/-- `lookup` distributes over append, preferring the left list. -/
theorem lookup_append (p : AbsPath) (fs tl : CFS) :
    (fs ++ tl).lookup p = ((fs.lookup p).or (tl.lookup p)) := by
  induction fs with
  | nil => rfl
  | cons e fs ih =>
    obtain ⟨k, v⟩ := e
    cases hpk : p == k <;> simp [List.lookup, hpk, ih, Option.or]

/-- Facts of a successful `copyOriginals` loop: files present before
stay present, every processed source's destination exists afterwards,
and the `fileMap` is the accumulator plus one record per source. -/
theorem copyOriginalsGo_ok_facts (d : AbsPath) (lab : List Char) (L : List AbsPath) :
    ∀ fs c s acc fs1 c1 s1 m1,
      copyOriginalsGo d lab fs c s acc L = .ok (fs1, c1, s1, m1) →
      ((∀ p, ((fs : CFS).lookup p).isSome → (fs1.lookup p).isSome) ∧
       (∀ src ∈ L, (fs1.lookup (c6Dst d lab src)).isSome) ∧
       m1 = acc ++ c6Map lab L) := by
  induction L with
  | nil =>
    intro fs c s acc fs1 c1 s1 m1 h
    simp only [copyOriginalsGo, Except.ok.injEq, Prod.mk.injEq] at h
    obtain ⟨hfs, -, -, hm⟩ := h
    subst hfs
    subst hm
    exact ⟨fun p hp => hp, by simp, by simp [c6Map]⟩
  | cons src rest ih =>
    intro fs c s acc fs1 c1 s1 m1 h
    simp only [copyOriginalsGo] at h
    cases hc : copyFileEnsured fs src (d ++ [withCameraPrefix (basenameP src) lab]) with
    | error e => rw [hc] at h; exact absurd h (by simp)
    | ok v =>
      obtain ⟨fs2, didCopy⟩ := v
      rw [hc] at h
      obtain ⟨hmono, hall, hm⟩ := ih fs2 _ _ _ fs1 c1 s1 m1 h
      simp only [copyFileEnsured] at hc
      by_cases hdst :
          (List.lookup (d ++ [withCameraPrefix (basenameP src) lab]) fs).isSome = true
      · rw [if_pos hdst] at hc
        simp only [Except.ok.injEq, Prod.mk.injEq] at hc
        have hfs2 : fs2 = fs := hc.1.symm
        subst hfs2
        refine ⟨hmono, ?_, ?_⟩
        · intro q hq
          rcases List.mem_cons.mp hq with hq | hq
          · subst hq; exact hmono _ (by simpa [c6Dst] using hdst)
          · exact hall q hq
        · rw [hm]; simp [c6Map]
      · rw [if_neg hdst] at hc
        have hdn : List.lookup (d ++ [withCameraPrefix (basenameP src) lab]) fs = none :=
          Option.not_isSome_iff_eq_none.mp (by simpa using hdst)
        cases hsrc : List.lookup src fs with
        | none => rw [hsrc] at hc; exact absurd hc (by simp)
        | some content =>
          rw [hsrc] at hc
          simp only [Except.ok.injEq, Prod.mk.injEq] at hc
          have hfs2 :
              fs2 = fs ++ [(d ++ [withCameraPrefix (basenameP src) lab], content)] :=
            hc.1.symm
          subst hfs2
          refine ⟨?_, ?_, ?_⟩
          · intro p hp
            refine hmono p ?_
            rw [lookup_append]
            cases hv : List.lookup p fs with
            | none => rw [hv] at hp; simp at hp
            | some w => simp [Option.or]
          · intro q hq
            rcases List.mem_cons.mp hq with hq | hq
            · subst hq
              refine hmono _ ?_
              simp only [c6Dst]
              rw [lookup_append, hdn]
              simp [Option.or, List.lookup]
            · exact hall q hq
          · rw [hm]; simp [c6Map]

/-- When every destination already exists, the `copyOriginals` loop
copies nothing: the filesystem is unchanged, every file is skipped, and
only the `fileMap` grows. -/
theorem copyOriginalsGo_all_present (d : AbsPath) (lab : List Char) (L : List AbsPath) :
    ∀ fs c s acc,
      (∀ src ∈ L, ((fs : CFS).lookup (c6Dst d lab src)).isSome) →
      copyOriginalsGo d lab fs c s acc L =
        .ok (fs, c, s + L.length, acc ++ c6Map lab L) := by
  induction L with
  | nil =>
    intro fs c s acc h
    simp [copyOriginalsGo, c6Map]
  | cons src rest ih =>
    intro fs c s acc h
    have hdst : ((fs : CFS).lookup (c6Dst d lab src)).isSome :=
      h src (List.mem_cons_self _ _)
    have hc : copyFileEnsured fs src (d ++ [withCameraPrefix (basenameP src) lab]) =
        .ok (fs, false) := by
      simp only [copyFileEnsured]
      rw [if_pos (by simpa [c6Dst] using hdst)]
    have h2 := ih fs c (s + 1)
      (acc ++ [⟨src, withCameraPrefix (basenameP src) lab,
        "originals/".toList ++ withCameraPrefix (basenameP src) lab⟩])
      (fun q hq => h q (List.mem_cons_of_mem _ hq))
    have hstep : copyOriginalsGo d lab fs c s acc (src :: rest) =
        copyOriginalsGo d lab fs c (s + 1)
          (acc ++ [⟨src, withCameraPrefix (basenameP src) lab,
            "originals/".toList ++ withCameraPrefix (basenameP src) lab⟩]) rest := by
      simp [copyOriginalsGo, hc]
    rw [hstep, h2]
    have hlen : s + 1 + rest.length = s + (src :: rest).length := by
      simp only [List.length_cons]; omega
    rw [hlen]
    simp [c6Map]

/-- **C6.** Archive-copy is idempotent: when `copyOriginals` over
filesystem `fs` succeeds with `(fs1, c1, s1, m1)`, running it again on
`fs1` with the same inputs performs no copy - it returns `copied = 0`,
`skipped = files.length`, the same file map `m1`, and leaves the
filesystem exactly `fs1`. -/
theorem claim_C6_idempotentCopy (fs : CFS) (files : List AbsPath)
    (originalsDir : AbsPath) (cameraLabel : List Char)
    (fs1 : CFS) (c1 s1 : ℕ) (m1 : List FileMapEntry)
    (h1 : copyOriginals fs files originalsDir cameraLabel = .ok (fs1, c1, s1, m1)) :
    copyOriginals fs1 files originalsDir cameraLabel =
      .ok (fs1, 0, files.length, m1) := by
  unfold copyOriginals at h1 ⊢
  obtain ⟨-, hall, hm⟩ :=
    copyOriginalsGo_ok_facts originalsDir cameraLabel _ fs 0 0 [] fs1 c1 s1 m1 h1
  have h2 := copyOriginalsGo_all_present originalsDir cameraLabel _ fs1 0 0 [] hall
  rw [h2, hm]
  simp [List.length_insertionSort]

/-- The idempotence theorem at the one-file scenario: the first run has
copied the file to `d/originals/cam__a.arw`, the second run copies
nothing and skips the one file. -/
theorem claim_C6_idempotentCopy_witness :
    copyOriginals
        [(["pics".toList, "a.arw".toList], 1),
         (["d".toList, "originals".toList, "cam__a.arw".toList], 1)]
        [["pics".toList, "a.arw".toList]]
        ["d".toList, "originals".toList] "cam".toList =
      .ok ([(["pics".toList, "a.arw".toList], 1),
            (["d".toList, "originals".toList, "cam__a.arw".toList], 1)], 0,
        [["pics".toList, "a.arw".toList]].length,
        [⟨["pics".toList, "a.arw".toList], "cam__a.arw".toList,
          "originals/cam__a.arw".toList⟩]) :=
  claim_C6_idempotentCopy
    [(["pics".toList, "a.arw".toList], 1)]
    [["pics".toList, "a.arw".toList]]
    ["d".toList, "originals".toList] "cam".toList
    [(["pics".toList, "a.arw".toList], 1),
     (["d".toList, "originals".toList, "cam__a.arw".toList], 1)]
    1 0
    [⟨["pics".toList, "a.arw".toList], "cam__a.arw".toList,
      "originals/cam__a.arw".toList⟩]
    rfl

/-- A failing target collection names a primary whose companion
resolution was rejected. -/
theorem collectTargets_error (root : AbsPath) (index : List ((List Char) × AbsPath))
    (ijr : Bool) (L : List AbsPath) :
    ∀ acc e, collectTargets root index ijr acc L = .error e →
      ∃ p ∈ L, resolveCompanions p root index ijr = .error e := by
  induction L with
  | nil => intro acc e h; simp [collectTargets] at h
  | cons q rest ih =>
    intro acc e h
    simp only [collectTargets] at h
    cases hr : resolveCompanions q root index ijr with
    | error e2 =>
      rw [hr] at h
      refine ⟨q, List.mem_cons_self _ _, ?_⟩
      rw [hr]
      simpa using h
    | ok comps =>
      rw [hr] at h
      obtain ⟨p, hp, hres⟩ := ih _ e h
      exact ⟨p, List.mem_cons_of_mem _ hp, hres⟩

/-- Appending an element to the first of three concatenated blocks is a
permutation of consing it onto the remainder. -/
theorem perm_snoc1 {α : Type} (X Y Z R : List α) (q : α) :
    (((X ++ [q]) ++ Y ++ Z) ++ R).Perm ((X ++ Y ++ Z) ++ q :: R) := by
  have h1 : ((X ++ [q]) ++ Y ++ Z) ++ R = X ++ q :: (Y ++ (Z ++ R)) := by simp
  rw [h1]
  refine List.Perm.trans List.perm_middle ?_
  have h3 : q :: (X ++ (Y ++ (Z ++ R))) = q :: ((X ++ Y ++ Z) ++ R) := by simp
  rw [h3]
  exact List.perm_middle.symm

/-- Appending an element to the second of three concatenated blocks is
a permutation of consing it onto the remainder. -/
theorem perm_snoc2 {α : Type} (X Y Z R : List α) (q : α) :
    ((X ++ (Y ++ [q]) ++ Z) ++ R).Perm ((X ++ Y ++ Z) ++ q :: R) := by
  have h1 : (X ++ (Y ++ [q]) ++ Z) ++ R = (X ++ Y) ++ q :: (Z ++ R) := by simp
  rw [h1]
  refine List.Perm.trans List.perm_middle ?_
  have h3 : q :: ((X ++ Y) ++ (Z ++ R)) = q :: ((X ++ Y ++ Z) ++ R) := by simp
  rw [h3]
  exact List.perm_middle.symm

/-- The move loop accounts for every processed target exactly once:
sources of `moved`, `skipped` and sources of `errors` together are a
permutation of the accumulators plus the processed list. -/
theorem moveLoop_perm (root trashDir : AbsPath) (now : ℕ) (ioFail : AbsPath → Bool)
    (L : List AbsPath) :
    ∀ fs m s e fs2 m2 s2 e2,
      moveLoop root trashDir now ioFail fs m s e L = (fs2, m2, s2, e2) →
      (m2.map Prod.fst ++ s2 ++ e2.map Prod.fst).Perm
        ((m.map Prod.fst ++ s ++ e.map Prod.fst) ++ L) := by
  induction L with
  | nil =>
    intro fs m s e fs2 m2 s2 e2 h
    simp only [moveLoop, Prod.mk.injEq] at h
    obtain ⟨-, hm, hs, he⟩ := h
    subst hm; subst hs; subst he
    simp
  | cons q rest ih =>
    intro fs m s e fs2 m2 s2 e2 h
    simp only [moveLoop] at h
    by_cases hq : q ∈ fs
    · rw [if_pos hq] at h
      by_cases hio : ioFail q = true
      · rw [if_pos hio] at h
        have hperm := ih _ _ _ _ _ _ _ _ h
        have hmap : ((e ++ [(q, "EIO")]).map Prod.fst : List AbsPath) =
            e.map Prod.fst ++ [q] := by simp
        rw [hmap] at hperm
        have heq : ((m.map Prod.fst ++ s ++ (e.map Prod.fst ++ [q])) ++ rest :
            List AbsPath) = (m.map Prod.fst ++ s ++ e.map Prod.fst) ++ q :: rest := by
          simp
        exact heq ▸ hperm
      · rw [if_neg hio] at h
        cases hmv : moveToTrashPreserveRel fs q root trashDir now with
        | ok v =>
          obtain ⟨fsx, dst⟩ := v
          rw [hmv] at h
          have hperm := ih _ _ _ _ _ _ _ _ h
          have hmap : ((m ++ [(q, dst)]).map Prod.fst : List AbsPath) =
              m.map Prod.fst ++ [q] := by simp
          rw [hmap] at hperm
          exact hperm.trans (perm_snoc1 _ _ _ _ _)
        | error e3 =>
          rw [hmv] at h
          have hperm := ih _ _ _ _ _ _ _ _ h
          have hmap : ((e ++ [(q, e3)]).map Prod.fst : List AbsPath) =
              e.map Prod.fst ++ [q] := by simp
          rw [hmap] at hperm
          have heq : ((m.map Prod.fst ++ s ++ (e.map Prod.fst ++ [q])) ++ rest :
              List AbsPath) = (m.map Prod.fst ++ s ++ e.map Prod.fst) ++ q :: rest := by
            simp
          exact heq ▸ hperm
    · rw [if_neg hq] at h
      have hperm := ih _ _ _ _ _ _ _ _ h
      exact hperm.trans (perm_snoc2 _ _ _ _ _)

/-- **C7.** [corrected] Error handling of the Safe Archival Mover
route: whenever the route responds with an error, no file has been
moved (the file list is unchanged) and the error originates before the
move loop - a missing root, an empty or all-invalid `files` array, a
primary failing the route's own inside-root check, or a rejection
thrown by the companion resolver for a primary (this last cause is
missing from the original claim: a primary inside the root can still be
rejected, see the counterexample).  Whenever the route responds `ok`,
no per-file failure has escaped: the sources of `moved`, the `skipped`
entries and the sources of `errors` together are a permutation of the
collected targets. -/
theorem claim_C7_errorHandling (fs : FS) (root : Option AbsPath) (files : List AbsPath)
    (entries : List FEntry) (stamp : PathSeg) (now : ℕ) (ioFail : AbsPath → Bool) :
    (∀ e fs2, deleteSessionRoute fs root files entries stamp now ioFail = (.error e, fs2) →
      fs2 = fs ∧
      (root = none ∨ ∃ sr, root = some sr ∧
        (files = [] ∨ primariesOf files = [] ∨
         (∃ p ∈ primariesOf files, isPathInside p (normComp sr) = false) ∨
         (∃ p ∈ primariesOf files,
           resolveCompanions p (normComp sr)
             (buildCompanionIndex (normComp sr) true entries) true = .error e)))) ∧
    (∀ resp fs2, deleteSessionRoute fs root files entries stamp now ioFail = (.ok resp, fs2) →
      ∃ sr targets, root = some sr ∧
        collectTargets (normComp sr) (buildCompanionIndex (normComp sr) true entries) true
          [] (primariesOf files) = .ok targets ∧
        (resp.moved.map Prod.fst ++ resp.skipped ++ resp.errors.map Prod.fst).Perm
          targets) := by
  constructor
  · intro e fs2 h
    cases root with
    | none =>
      simp only [deleteSessionRoute, Prod.mk.injEq] at h
      exact ⟨h.2.symm, Or.inl rfl⟩
    | some sr =>
      simp only [deleteSessionRoute] at h
      by_cases hfe : files.isEmpty = true
      · rw [if_pos hfe] at h
        simp only [Prod.mk.injEq] at h
        exact ⟨h.2.symm, Or.inr ⟨sr, rfl, Or.inl (List.isEmpty_iff.mp hfe)⟩⟩
      · rw [if_neg hfe] at h
        by_cases hpe : (primariesOf files).isEmpty = true
        · rw [if_pos hpe] at h
          simp only [Prod.mk.injEq] at h
          exact ⟨h.2.symm, Or.inr ⟨sr, rfl, Or.inr (Or.inl (List.isEmpty_iff.mp hpe))⟩⟩
        · rw [if_neg hpe] at h
          by_cases hany :
              ((primariesOf files).any fun q => !isPathInside q (normComp sr)) = true
          · rw [if_pos hany] at h
            simp only [Prod.mk.injEq] at h
            obtain ⟨p, hp, hb⟩ := List.any_eq_true.mp hany
            exact ⟨h.2.symm, Or.inr ⟨sr, rfl, Or.inr (Or.inr (Or.inl
              ⟨p, hp, by simpa using hb⟩))⟩⟩
          · rw [if_neg hany] at h
            cases hct : collectTargets (normComp sr)
                (buildCompanionIndex (normComp sr) true entries) true []
                (primariesOf files) with
            | error e2 =>
              rw [hct] at h
              simp only [Prod.mk.injEq, Except.error.injEq] at h
              obtain ⟨he, hfs⟩ := h
              subst he
              obtain ⟨p, hp, hres⟩ := collectTargets_error _ _ _ _ _ _ hct
              exact ⟨hfs.symm, Or.inr ⟨sr, rfl, Or.inr (Or.inr (Or.inr
                ⟨p, hp, hres⟩))⟩⟩
            | ok targets =>
              rw [hct] at h
              simp at h
  · intro resp fs2 h
    cases root with
    | none => simp only [deleteSessionRoute, Prod.mk.injEq] at h; simp at h
    | some sr =>
      simp only [deleteSessionRoute] at h
      by_cases hfe : files.isEmpty = true
      · rw [if_pos hfe] at h; simp at h
      · rw [if_neg hfe] at h
        by_cases hpe : (primariesOf files).isEmpty = true
        · rw [if_pos hpe] at h; simp at h
        · rw [if_neg hpe] at h
          by_cases hany :
              ((primariesOf files).any fun q => !isPathInside q (normComp sr)) = true
          · rw [if_pos hany] at h; simp at h
          · rw [if_neg hany] at h
            cases hct : collectTargets (normComp sr)
                (buildCompanionIndex (normComp sr) true entries) true []
                (primariesOf files) with
            | error e2 => rw [hct] at h; simp at h
            | ok targets =>
              rw [hct] at h
              rcases hml : moveLoop (normComp sr)
                  (normComp sr ++ [trashDirName, stamp]) now ioFail fs [] [] []
                  targets with ⟨fsx, mx, sx, ex⟩
              simp only [hml, Prod.mk.injEq, Except.ok.injEq] at h
              obtain ⟨hresp, -⟩ := h
              subst hresp
              refine ⟨sr, targets, rfl, hct, ?_⟩
              have hperm := moveLoop_perm _ _ _ _ _ _ _ _ _ _ _ _ _ hml
              simpa using hperm

/-- A primary inside the root (it passes the route's own `isPathInside`
check) whose path contains a directory literally named `a..`: the
companion resolver's `rel.includes("../")` test rejects it, so the
route throws although the file list is nonempty, the root is present
and no primary is outside the root - refuting the original C7.  The
request leaves the filesystem untouched. -/
theorem claim_C7_counterexample :
    (deleteSessionRoute [["r".toList, "a..".toList, "f.arw".toList]]
        (some ["r".toList]) [["r".toList, "a..".toList, "f.arw".toList]]
        [] "t".toList 0 (fun _ => false)).1 =
      Except.error "primaryPath is outside sourceRoot" ∧
    ([["r".toList, "a..".toList, "f.arw".toList]] : List AbsPath) ≠ [] ∧
    isPathInside (normComp ["r".toList, "a..".toList, "f.arw".toList])
      (normComp ["r".toList]) = true ∧
    (deleteSessionRoute [["r".toList, "a..".toList, "f.arw".toList]]
        (some ["r".toList]) [["r".toList, "a..".toList, "f.arw".toList]]
        [] "t".toList 0 (fun _ => false)).2 =
      [["r".toList, "a..".toList, "f.arw".toList]] :=
  ⟨rfl, by decide, by decide, rfl⟩

end FotoStudio
